import Mathlib

/-!
Verification of the k8psh core against its specification.

The C++ sources (Utilities.cxx, Configuration.cxx, Process.cxx, Socket.cxx) are
shallowly embedded below: C++ std::string values become lists of byte values,
fallible code returns Except/Option, and every loop is translated as a
fuel-indexed structural recursion whose wrapper supplies enough fuel for the
loop bound that the C++ code guarantees (each loop strictly advances an offset
bounded by the input length).
-/

namespace K8psh

/-- Byte strings: a C++ std::string is modelled as its list of byte values. -/
abbrev Str := List Nat

/-- Turns a Lean string literal of ASCII characters into its byte values. -/
def bytes (s : String) : Str := s.toList.map Char.toNat

/-- Reading a byte of a string through operator[]: the index one past the end
yields the NUL terminator, as C++ std::string guarantees (the parser relies on
this as its end-of-input marker). -/
def charAt (s : Str) (i : Nat) : Nat := s.getD i 0

/-- substr(a, b - a): the span of bytes from index a (inclusive) to b (exclusive). -/
def substrTo (s : Str) (a b : Nat) : Str := (s.drop a).take (b - a)

/-- k8psh::Utilities::isWhitespace: (c >= 9 && c <= 13) || c == 32 (byte 32 is the space). -/
def isWhitespace (c : Nat) : Bool := (9 ≤ c && c ≤ 13) || c == 32

/-- The fixed byte table VALID_ENV_NAME_CHARS of
k8psh::Utilities::substituteEnvironmentVariables, transcribed entry for entry
from Utilities.cxx lines 742-747.  The C++ array has 256 entries of which only
the first 128 are written; the rest are zero-initialised, which getD covers. -/
def VALID_ENV_NAME_CHARS : List Nat := [
  0, 0, 0, 0, 0, 0, 0, 0, 0, 0, 0, 0, 0, 0, 0, 0, 0, 0, 0, 0, 0, 0, 0, 0, 0, 0, 0, 0, 0, 0, 0, 0,
  1, 0, 0, 0, 0, 0, 0, 0, 1, 1, 0, 0, 0, 1, 1, 0, 1, 1, 1, 1, 1, 1, 1, 1, 1, 1, 1, 0, 0, 0, 0, 0,
  0, 1, 1, 1, 1, 1, 1, 1, 1, 1, 1, 1, 1, 1, 1, 1, 1, 1, 1, 1, 1, 1, 1, 1, 1, 1, 1, 0, 0, 0, 0, 1,
  0, 1, 1, 1, 1, 1, 1, 1, 1, 1, 1, 1, 1, 1, 1, 1, 1, 1, 1, 1, 1, 1, 1, 1, 1, 1, 1, 0, 0, 1, 0, 0]

/-- Table lookup VALID_ENV_NAME_CHARS[c] as a Bool. -/
def validEnvNameChar (c : Nat) : Bool := VALID_ENV_NAME_CHARS.getD c 0 == 1

/-- in.find(two bytes 36 123, i): position of the next occurrence of the byte
pair that opens an environment-variable reference. -/
def findDollarBraceGo (inp : Str) : Nat → Nat → Option Nat
  | 0, _ => none
  | fuel + 1, i =>
    if i + 1 < inp.length then
      if charAt inp i == 36 && charAt inp (i + 1) == 123 then some i
      else findDollarBraceGo inp fuel (i + 1)
    else none

/-- Wrapper providing sufficient fuel for findDollarBraceGo. -/
def findDollarBrace (inp : Str) (i : Nat) : Option Nat :=
  findDollarBraceGo inp (inp.length + 1) i

/-- in.find(c, i): position of the next occurrence of byte c at or after i. -/
def findCharGo (inp : Str) (c : Nat) : Nat → Nat → Option Nat
  | 0, _ => none
  | fuel + 1, i =>
    if i < inp.length then
      if charAt inp i == c then some i else findCharGo inp c fuel (i + 1)
    else none

/-- Wrapper providing sufficient fuel for findCharGo. -/
def findChar (inp : Str) (c : Nat) (i : Nat) : Option Nat :=
  findCharGo inp c (inp.length + 1) i

/-- Result of scanning the name of one environment-variable occurrence. -/
inductive ScanResult where
  /-- The name scan ended without a substitution; the outer loop resumes at i. -/
  | noSub (i : Nat)
  /-- A substitution was performed writing value; the outer loop resumes at next. -/
  | sub (value : Str) (next : Nat)
  /-- The scan ran off the end of the input; the outer loop then terminates. -/
  | runOff
deriving Repr, DecidableEq

/-- The inner name-scanning loop of substituteEnvironmentVariables
(Utilities.cxx lines 764-812).  dollar is the index of the opening byte 36;
the environment lookup env models Utilities::getEnvironmentVariable(overrides, name),
so it already folds the override map over the process environment. -/
def scanNameGo (env : Str → Option Str) (inp : Str) (dollar : Nat) : Nat → Nat → ScanResult
  | 0, _ => .runOff
  | fuel + 1, i =>
    if i < inp.length then
      let c := charAt inp i
      if !validEnvNameChar c then .noSub i
      else if c == 58 then
        if charAt inp (i + 1) != 45 then .noSub i
        else
          match findChar inp 125 (i + 2) with
          | none => .runOff
          | some e =>
            match env (substrTo inp (dollar + 2) i) with
            | some v => .sub v (e + 1)
            | none => .sub (substrTo inp (i + 2) e) (e + 1)
      else if c == 125 then
        .sub ((env (substrTo inp (dollar + 2) i)).getD []) (i + 1)
      else scanNameGo env inp dollar fuel (i + 1)
    else .runOff

/-- One call of the inner scan with sufficient fuel. -/
def scanName (env : Str → Option Str) (inp : Str) (dollar : Nat) : ScanResult :=
  scanNameGo env inp dollar (inp.length + 1) (dollar + 2)

/-- The outer loop of substituteEnvironmentVariables (Utilities.cxx lines
754-813): a is the start of the pending literal span (the variable at in the
C++), i the scan position, result the output accumulated so far. -/
def substFrom (env : Str → Option Str) (inp : Str) : Nat → Nat → Nat → Str → Str
  | 0, a, _, result => result ++ inp.drop a
  | fuel + 1, a, i, result =>
    if i < inp.length then
      match findDollarBrace inp i with
      | none => result ++ inp.drop a
      | some dollar =>
        let result := result ++ substrTo inp a dollar
        match scanName env inp dollar with
        | .noSub j => substFrom env inp fuel dollar j result
        | .sub v next => substFrom env inp fuel next next (result ++ v)
        | .runOff => result ++ inp.drop dollar
    else result ++ inp.drop a

/-- k8psh::Utilities::substituteEnvironmentVariables (Utilities.cxx lines 740-818). -/
def substituteEnvironmentVariables (env : Str → Option Str) (inp : Str) : Str :=
  substFrom env inp (inp.length + 2) 0 0 []

/-- A small helper building an environment-lookup function from an association list. -/
def envOf (l : List (Str × Str)) : Str → Option Str :=
  fun n => (l.find? (fun p => p.1 == n)).map (fun p => p.2)

example : substituteEnvironmentVariables (envOf [(bytes "A", bytes "x")])
    (bytes "pre $\x7bA\x7d post") = bytes "pre x post" := by decide
example : substituteEnvironmentVariables (envOf [])
    (bytes "$\x7bA:-def\x7d!") = bytes "def!" := by decide
example : substituteEnvironmentVariables (envOf []) (bytes "$\x7bA") = bytes "$\x7bA" := by decide
example : substituteEnvironmentVariables (envOf [(bytes "A+B", bytes "x")])
    (bytes "$\x7bA+B\x7d") = bytes "$\x7bA+B\x7d" := by decide
example : substituteEnvironmentVariables (envOf [(bytes "A B", bytes "y")])
    (bytes "$\x7bA B\x7d") = bytes "y" := by decide
example : substituteEnvironmentVariables (envOf []) (bytes "$\x7bMISSING\x7d!") = bytes "!" := by
  decide

/-! ## Shared list lemmas -/

theorem charAt_append_left (xs ys : Str) (i : Nat) (h : i < xs.length) :
    charAt (xs ++ ys) i = charAt xs i := by
  unfold charAt List.getD
  rw [List.get?_append h]

theorem charAt_append_right (xs ys : Str) (i : Nat) :
    charAt (xs ++ ys) (xs.length + i) = charAt ys i := by
  unfold charAt List.getD
  rw [List.get?_append_right (by omega), Nat.add_sub_cancel_left]

/-! ## Facts about the find loop used to locate the byte pair 36 123 -/

theorem findDollarBraceGo_some (inp : Str) (fuel : Nat) :
    ∀ i d, findDollarBraceGo inp fuel i = some d →
      d + 1 < inp.length ∧ charAt inp d = 36 ∧ charAt inp (d + 1) = 123 := by
  induction fuel with
  | zero => intro i d h; simp [findDollarBraceGo] at h
  | succ fuel ih =>
    intro i d h
    unfold findDollarBraceGo at h
    split at h
    · rename_i h1
      split at h
      · rename_i h2
        cases h
        simp only [Bool.and_eq_true, beq_iff_eq] at h2
        exact ⟨h1, h2.1, h2.2⟩
      · exact ih _ _ h
    · exact absurd h (by simp)

theorem pairInfix_of_find (inp : Str) (i d : Nat) (h : findDollarBrace inp i = some d) :
    [36, 123] <:+: inp := by
  obtain ⟨hlt, h36, h123⟩ := findDollarBraceGo_some inp (inp.length + 1) i d h
  have hd : d < inp.length := by omega
  refine ⟨inp.take d, inp.drop (d + 2), ?_⟩
  have e0 : inp.take d ++ inp.drop d = inp := List.take_append_drop d inp
  have e1 : inp.drop d = 36 :: inp.drop (d + 1) := by
    rw [List.drop_eq_getElem_cons hd]
    have := List.getD_eq_getElem inp 0 hd
    rw [show inp.getD d 0 = charAt inp d from rfl, h36] at this
    rw [← this]
  have e2 : inp.drop (d + 1) = 123 :: inp.drop (d + 2) := by
    rw [List.drop_eq_getElem_cons hlt]
    have := List.getD_eq_getElem inp 0 hlt
    rw [show inp.getD (d + 1) 0 = charAt inp (d + 1) from rfl, h123] at this
    rw [← this]
  calc inp.take d ++ [36, 123] ++ inp.drop (d + 2)
      = inp.take d ++ (36 :: (123 :: inp.drop (d + 2))) := by simp
    _ = inp.take d ++ inp.drop d := by rw [e1, e2]
    _ = inp := e0

/-! ## Claim C9 -/

/-- C9: for every input string containing no occurrence of the two-byte
sequence 36 123 (the characters dollar and open-brace) and every override map,
environment substitution returns the input unchanged, and hence substitution is
idempotent on such inputs. -/
theorem C9_subst_identity (env : Str → Option Str) (inp : Str)
    (h : ¬ [36, 123] <:+: inp) :
    substituteEnvironmentVariables env inp = inp ∧
    substituteEnvironmentVariables env (substituteEnvironmentVariables env inp) =
      substituteEnvironmentVariables env inp := by
  have hf : findDollarBrace inp 0 = none := by
    cases heq : findDollarBrace inp 0 with
    | none => rfl
    | some d => exact absurd (pairInfix_of_find inp 0 d heq) h
  have h1 : substituteEnvironmentVariables env inp = inp := by
    show substFrom env inp (inp.length + 1 + 1) 0 0 [] = inp
    unfold substFrom
    simp [hf]
  exact ⟨h1, by rw [h1, h1]⟩

/-- Witness for C9 at a concrete input. -/
theorem C9_witness :
    ¬ [36, 123] <:+: bytes "plain $ text" ∧
    substituteEnvironmentVariables (envOf []) (bytes "plain $ text") = bytes "plain $ text" :=
  ⟨by decide, (C9_subst_identity (envOf []) (bytes "plain $ text") (by decide)).1⟩

/-! ## Claim C1 -/

/-- The name-byte set exactly as the spec claims it for C1:
[A-Za-z0-9_] plus the seven bytes ( ) + - . / ?. -/
def claimedNameChar (c : Nat) : Bool :=
  (65 ≤ c && c ≤ 90) || (97 ≤ c && c ≤ 122) || (48 ≤ c && c ≤ 57) || c == 95 ||
    c == 40 || c == 41 || c == 43 || c == 45 || c == 46 || c == 47 || c == 63

/-- The name-byte set actually encoded by VALID_ENV_NAME_CHARS (with the colon
and the closing brace, which the scanner treats as terminators, set aside):
[A-Za-z0-9_] plus space, ( ) - and period. -/
def amendedNameChar (c : Nat) : Bool :=
  (65 ≤ c && c ≤ 90) || (97 ≤ c && c ≤ 122) || (48 ≤ c && c ≤ 57) || c == 95 ||
    c == 32 || c == 40 || c == 41 || c == 45 || c == 46

/-- C1 counterexample: the byte 43 (plus) is in the claimed set but not in the
table, so a name containing it is never substituted, while the byte 32 (space)
is in the table but not in the claimed set, so a name containing it is
substituted. -/
theorem C1_counterexample :
    validEnvNameChar 43 = false ∧ claimedNameChar 43 = true ∧
    substituteEnvironmentVariables (envOf [(bytes "A+B", bytes "x")]) (bytes "$\x7bA+B\x7d") =
      bytes "$\x7bA+B\x7d" ∧
    validEnvNameChar 32 = true ∧ claimedNameChar 32 = false ∧
    substituteEnvironmentVariables (envOf [(bytes "A B", bytes "y")]) (bytes "$\x7bA B\x7d") =
      bytes "y" := by
  decide

/-- Stepping lemma: the scanner walks over a name consisting only of bytes that
are marked in the table and are neither the colon nor the closing brace, and
performs the substitution at the closing brace that follows it. -/
theorem scanNameGo_through (env : Str → Option Str) (name : Str)
    (hname : ∀ c ∈ name, validEnvNameChar c = true ∧ c ≠ 58 ∧ c ≠ 125) :
    ∀ suf pre fuel, name = pre ++ suf → suf.length + 1 ≤ fuel →
      scanNameGo env ([36, 123] ++ (name ++ [125])) 0 fuel (2 + pre.length) =
        .sub ((env name).getD []) (name.length + 3) := by
  intro suf
  induction suf with
  | nil =>
    intro pre fuel hsplit hfuel
    obtain ⟨f, rfl⟩ : ∃ f, fuel = f + 1 := ⟨fuel - 1, by omega⟩
    have hpre : pre = name := by simpa using hsplit.symm
    subst hpre
    have hlen : ([36, 123] ++ (pre ++ [125])).length = pre.length + 3 := by simp
    unfold scanNameGo
    rw [if_pos (by omega)]
    have hc : charAt ([36, 123] ++ (pre ++ [125])) (2 + pre.length) = 125 := by
      rw [show (2 : Nat) + pre.length = ([36, 123] : Str).length + pre.length from rfl,
        charAt_append_right]
      rw [show charAt (pre ++ [125]) pre.length = charAt (pre ++ [125]) (pre.length + 0) from rfl,
        charAt_append_right]
      rfl
    rw [hc]
    simp only [show validEnvNameChar 125 = true from rfl, Bool.not_true, Bool.false_eq_true,
      if_false, show ((125 : Nat) == 58) = false from rfl, if_pos rfl]
    have hdrop : List.drop (0 + 2) ([36, 123] ++ (pre ++ [125])) = pre ++ [125] := rfl
    have hsub : substrTo ([36, 123] ++ (pre ++ [125])) (0 + 2) (2 + pre.length) = pre := by
      unfold substrTo
      rw [hdrop, show 2 + pre.length - (0 + 2) = pre.length by omega]
      exact List.take_left pre [125]
    rw [hsub, show 2 + pre.length + 1 = pre.length + 3 by omega,
      if_pos (show ((125 : Nat) == 125) = true from rfl)]
  | cons c suf ih =>
    intro pre fuel hsplit hfuel
    obtain ⟨f, rfl⟩ : ∃ f, fuel = f + 1 := ⟨fuel - 1, by omega⟩
    have hnl : name.length = pre.length + suf.length + 1 := by
      rw [hsplit]; simp; omega
    have hcmem : c ∈ name := by rw [hsplit]; simp
    obtain ⟨hcv, hc58, hc125⟩ := hname c hcmem
    unfold scanNameGo
    rw [if_pos (by simp; omega)]
    have hc : charAt ([36, 123] ++ (name ++ [125])) (2 + pre.length) = c := by
      rw [show (2 : Nat) + pre.length = ([36, 123] : Str).length + pre.length from rfl,
        charAt_append_right]
      rw [hsplit, List.append_assoc, List.cons_append,
        show charAt (pre ++ (c :: (suf ++ [125]))) pre.length =
          charAt (pre ++ (c :: (suf ++ [125]))) (pre.length + 0) from rfl,
        charAt_append_right]
      rfl
    rw [hc]
    simp only [hcv, Bool.not_true, Bool.false_eq_true, if_false,
      show ∀ b, (b ≠ 58) → ((b == 58) = false) from fun b hb => beq_false_of_ne hb, hc58, hc125]
    rw [if_neg (by simp [hc58]), if_neg (by simp [hc125])]
    have : 2 + pre.length + 1 = 2 + (pre ++ [c]).length := by simp; omega
    rw [this, ih (pre ++ [c]) f (by rw [hsplit]; simp) (by simp at hfuel ⊢; omega)]

set_option maxRecDepth 8000 in
/-- C1 amended: the name inside an environment-variable reference is scanned as
a maximal run of bytes drawn exactly from the set [A-Za-z0-9_] plus space,
open-parenthesis, close-parenthesis, hyphen and period (the table additionally
marks the colon, which only continues a reference as the default separator, and
the closing brace, which completes it); a reference whose name consists of such
bytes and that is closed by byte 125 is substituted with the looked-up value. -/
theorem C1_amended :
    (∀ c, c < 256 → c ≠ 58 → c ≠ 125 → validEnvNameChar c = amendedNameChar c) ∧
    (∀ (env : Str → Option Str) (name v : Str),
      (∀ c ∈ name, validEnvNameChar c = true ∧ c ≠ 58 ∧ c ≠ 125) →
      env name = some v →
      substituteEnvironmentVariables env ([36, 123] ++ (name ++ [125])) = v) := by
  constructor
  · decide
  · intro env name v hname henv
    have hlen : ([36, 123] ++ (name ++ [125])).length = name.length + 3 := by simp
    have hfind : findDollarBrace ([36, 123] ++ (name ++ [125])) 0 = some 0 := by
      unfold findDollarBrace findDollarBraceGo
      rw [if_pos (by omega), if_pos ?_]
      rw [show charAt ([36, 123] ++ (name ++ [125])) 0 = 36 from rfl,
        show charAt ([36, 123] ++ (name ++ [125])) (0 + 1) = 123 from rfl]
      rfl
    have hscan : scanName env ([36, 123] ++ (name ++ [125])) 0 = .sub v (name.length + 3) := by
      have h1 := scanNameGo_through env name hname name []
        (([36, 123] ++ (name ++ [125])).length + 1) rfl (by rw [hlen]; omega)
      rw [henv] at h1
      exact h1
    unfold substituteEnvironmentVariables
    have h2 : ([36, 123] ++ (name ++ [125])).length + 2 =
        ([36, 123] ++ (name ++ [125])).length + 1 + 1 := rfl
    rw [h2]
    unfold substFrom
    rw [if_pos (by omega)]
    simp only [hfind, hscan]
    unfold substFrom
    rw [if_neg (by omega), List.drop_eq_nil_of_le (by omega)]
    simp [substrTo]

/-- Witness for C1 amended at concrete inputs: byte 43 differs nowhere from the
amended set, and a reference with the name PATH is substituted. -/
theorem C1_witness :
    validEnvNameChar 43 = amendedNameChar 43 ∧
    substituteEnvironmentVariables (envOf [(bytes "PATH", bytes "/bin")])
      ([36, 123] ++ (bytes "PATH" ++ [125])) = bytes "/bin" :=
  ⟨C1_amended.1 43 (by decide) (by decide) (by decide),
    C1_amended.2 (envOf [(bytes "PATH", bytes "/bin")]) (bytes "PATH") (bytes "/bin")
      (by decide) (by decide)⟩

/-! ## Configuration.cxx: the tokenizer -/

/-- parseHexValue (Configuration.cxx lines 22-33): gets the value of a
hexadecimal character; a byte outside 0-9 a-f A-F raises a fatal error.  Note
the source returns c - 97 for the bytes a-f and c - 65 for A-F without adding
ten, so every hex letter maps to 0..5. -/
def parseHexValue (c : Nat) : Except Unit Nat :=
  if 48 ≤ c && c ≤ 57 then .ok (c - 48)
  else if 97 ≤ c && c ≤ 102 then .ok (c - 97)
  else if !(65 ≤ c && c ≤ 70) then .error ()
  else .ok (c - 65)

/-- The double-quote loop of parseString (Configuration.cxx lines 58-89),
entered at the first byte after the opening quote; yields the offset after the
closing quote and the decoded bytes.  Fuel exhaustion cannot occur when the
wrapper fuel is supplied, since every step advances the offset. -/
def parseDoubleQuoted (cfg : Str) : Nat → Nat → Str → Except Unit (Nat × Str)
  | 0, _, _ => .error ()
  | fuel + 1, o, acc =>
    let c := charAt cfg o
    if c == 34 then
      if charAt cfg (o + 1) == 34 then parseDoubleQuoted cfg fuel (o + 2) (acc ++ [34])
      else .ok (o + 1, acc)
    else if c == 0 then .error ()
    else if c != 92 then parseDoubleQuoted cfg fuel (o + 1) (acc ++ [c])
    else
      let e := charAt cfg (o + 1)
      if e == 34 then parseDoubleQuoted cfg fuel (o + 2) (acc ++ [34])
      else if e == 92 then parseDoubleQuoted cfg fuel (o + 2) (acc ++ [92])
      else if e == 39 then parseDoubleQuoted cfg fuel (o + 2) (acc ++ [39])
      else if e == 98 then parseDoubleQuoted cfg fuel (o + 2) (acc ++ [8])
      else if e == 116 then parseDoubleQuoted cfg fuel (o + 2) (acc ++ [9])
      else if e == 110 then parseDoubleQuoted cfg fuel (o + 2) (acc ++ [10])
      else if e == 102 then parseDoubleQuoted cfg fuel (o + 2) (acc ++ [12])
      else if e == 114 then parseDoubleQuoted cfg fuel (o + 2) (acc ++ [13])
      else if e == 48 then parseDoubleQuoted cfg fuel (o + 2) (acc ++ [0])
      else if e == 120 then
        match parseHexValue (charAt cfg (o + 2)), parseHexValue (charAt cfg (o + 3)) with
        | .ok h1, .ok h2 => parseDoubleQuoted cfg fuel (o + 4) (acc ++ [(16 * h1 + h2) % 256])
        | _, _ => .error ()
      else .error ()

/-- The single-quote loop of parseString (Configuration.cxx lines 44-57). -/
def parseSingleQuoted (cfg : Str) : Nat → Nat → Str → Except Unit (Nat × Str)
  | 0, _, _ => .error ()
  | fuel + 1, o, acc =>
    let c := charAt cfg o
    if c == 39 then
      if charAt cfg (o + 1) == 39 then parseSingleQuoted cfg fuel (o + 2) (acc ++ [39])
      else .ok (o + 1, acc)
    else if c == 0 then .error ()
    else parseSingleQuoted cfg fuel (o + 1) (acc ++ [c])

/-- The main token loop of parseString (Configuration.cxx lines 42-93).
The state (o, value, ss) carries the offset, the accumulated value and the
variable substituteStart. -/
def parseStringLoop (env : Str → Option Str) (cfg : Str) (terminator : Nat) :
    Nat → Nat → Str → Nat → Except Unit (Nat × Str × Nat)
  | 0, _, _, _ => .error ()
  | fuel + 1, o, value, ss =>
    let c := charAt cfg o
    if c == 0 || isWhitespace c || c == 35 || c == terminator then .ok (o, value, ss)
    else if c == 39 then
      let value := value.take ss ++ substituteEnvironmentVariables env (value.drop ss)
      match parseSingleQuoted cfg (cfg.length + 2) (o + 1) [] with
      | .error e => .error e
      | .ok (o2, app) =>
        parseStringLoop env cfg terminator fuel o2 (value ++ app) (value ++ app).length
    else if c == 34 then
      match parseDoubleQuoted cfg (cfg.length + 2) (o + 1) [] with
      | .error e => .error e
      | .ok (o2, app) => parseStringLoop env cfg terminator fuel o2 (value ++ app) ss
    else parseStringLoop env cfg terminator fuel (o + 1) (value ++ [c]) ss

/-- parseString (Configuration.cxx lines 35-99); the default terminator of the
source is the byte 0. -/
def parseString (env : Str → Option Str) (cfg : Str) (offset : Nat) (terminator : Nat) :
    Except Unit (Nat × Str) :=
  match parseStringLoop env cfg terminator (cfg.length + 2) offset [] 0 with
  | .error e => .error e
  | .ok (o, value, ss) =>
    .ok (o, value.take ss ++ substituteEnvironmentVariables env (value.drop ss))

/-- skipComment (Configuration.cxx lines 101-108). -/
def skipCommentGo (cfg : Str) : Nat → Nat → Nat
  | 0, o => o
  | fuel + 1, o =>
    if charAt cfg o != 0 && charAt cfg o != 10 then skipCommentGo cfg fuel (o + 1) else o

/-- Wrapper providing sufficient fuel for skipCommentGo. -/
def skipComment (cfg : Str) (o : Nat) : Nat := skipCommentGo cfg (cfg.length + 1) o

/-- skipWhitespace (Configuration.cxx lines 110-117). -/
def skipWhitespaceGo (cfg : Str) : Nat → Nat → Nat
  | 0, o => o
  | fuel + 1, o =>
    if isWhitespace (charAt cfg o) then skipWhitespaceGo cfg fuel (o + 1) else o

/-- Wrapper providing sufficient fuel for skipWhitespaceGo. -/
def skipWhitespace (cfg : Str) (o : Nat) : Nat := skipWhitespaceGo cfg (cfg.length + 1) o

/-- skipNonNewlineWhitespace (Configuration.cxx lines 119-126): only tab and space. -/
def skipNnwsGo (cfg : Str) : Nat → Nat → Nat
  | 0, o => o
  | fuel + 1, o =>
    if charAt cfg o == 9 || charAt cfg o == 32 then skipNnwsGo cfg fuel (o + 1) else o

/-- Wrapper providing sufficient fuel for skipNnwsGo. -/
def skipNnws (cfg : Str) (o : Nat) : Nat := skipNnwsGo cfg (cfg.length + 1) o

/-- The trailing-content loop of ensureRestOfLineEmpty (Configuration.cxx lines 136-142). -/
def ensureRestGo (cfg : Str) : Nat → Nat → Except Unit Nat
  | 0, _ => .error ()
  | fuel + 1, o =>
    let c := charAt cfg o
    if c == 0 || c == 10 then .ok o
    else if !isWhitespace c then .error ()
    else ensureRestGo cfg fuel (o + 1)

/-- ensureRestOfLineEmpty (Configuration.cxx lines 128-145). -/
def ensureRestOfLineEmpty (cfg : Str) (o : Nat) : Except Unit Nat :=
  let o := skipNnws cfg o
  if charAt cfg o == 35 then .ok (skipComment cfg (o + 1))
  else ensureRestGo cfg (cfg.length + 1) o

/-- The equals-sign scanning loop of getConfigurationValue (Configuration.cxx
lines 154-160). -/
def equalsScanGo (cfg : Str) : Nat → Nat → Bool → Nat × Bool
  | 0, o, found => (o, found)
  | fuel + 1, o, found =>
    let c := charAt cfg o
    if c == 9 || c == 32 || (!found && c == 61) then
      equalsScanGo cfg fuel (o + 1) (found || c == 61)
    else (o, found)

/-- getConfigurationValue (Configuration.cxx lines 147-167); when no equals
sign follows the key the value stays empty. -/
def getConfigurationValue (env : Str → Option Str) (cfg : Str) (o : Nat) :
    Except Unit (Nat × Str × Str) :=
  match parseString env cfg o 61 with
  | .error e => .error e
  | .ok (o1, key) =>
    match equalsScanGo cfg (cfg.length + 1) o1 false with
    | (o2, false) => .ok (o2, key, [])
    | (o2, true) =>
      match parseString env cfg o2 0 with
      | .error e => .error e
      | .ok (o3, value) => .ok (o3, key, value)

/-- parseHost (Configuration.cxx lines 169-181): the bracketed host string is
parsed up to the byte 93 and must be nonempty and followed by that byte. -/
def parseHost (env : Str → Option Str) (cfg : Str) (o : Nat) : Except Unit (Nat × Str) :=
  match parseString env cfg o 93 with
  | .error e => .error e
  | .ok (o1, host) =>
    let o2 := skipNnws cfg o1
    if host == [] then .error ()
    else if charAt cfg o2 != 93 then .error ()
    else .ok (skipNnws cfg (o2 + 1), host)

/-- The argument loop of parseArguments (Configuration.cxx lines 183-195). -/
def parseArgumentsGo (env : Str → Option Str) (cfg : Str) :
    Nat → Nat → List Str → Except Unit (Nat × List Str)
  | 0, _, _ => .error ()
  | fuel + 1, o, values =>
    let c := charAt cfg o
    if c != 0 && !isWhitespace c && c != 35 then
      match parseString env cfg o 0 with
      | .error e => .error e
      | .ok (o1, v) => parseArgumentsGo env cfg fuel (skipNnws cfg o1) (values ++ [v])
    else .ok (o, values)

/-- Wrapper providing sufficient fuel for parseArgumentsGo. -/
def parseArguments (env : Str → Option Str) (cfg : Str) (o : Nat) :
    Except Unit (Nat × List Str) :=
  parseArgumentsGo env cfg (cfg.length + 2) o []

/-! ## Configuration.cxx: the catalog data model and load -/

/-- One parsed host section: the raw bracketed string, the hostname derived as
its span before the first colon, the parsed port suffix when one is present,
the assigned port and the option tokens.  The hosts are also collected in
order, mirroring the sequence of Host objects the source constructs. -/
structure HostRec where
  raw : Str
  hostname : Str
  portSpec : Option Nat
  port : Nat
  options : List Str
deriving Repr, DecidableEq

/-- One parsed command (Configuration::Command). -/
structure CommandRec where
  host : HostRec
  name : Str
  executable : List Str
  environmentVariables : List (Str × Str)
deriving Repr, DecidableEq

/-- The parsed configuration (Configuration), with the per-host and global
command maps modelled as association lists. -/
structure Config where
  baseDirectory : Str
  hosts : List HostRec
  hostCommands : List (Str × List (Str × CommandRec))
  commands : List (Str × CommandRec)
deriving Repr, DecidableEq

/-- Lookup in an association list modelling an unordered_map. -/
def lookupStr {β : Type} (m : List (Str × β)) (k : Str) : Option β :=
  (m.find? (fun p => p.1 == k)).map (fun p => p.2)

/-- operator[] assignment in an unordered_map: overwrite or append. -/
def upsertStr {β : Type} (m : List (Str × β)) (k : Str) (v : β) : List (Str × β) :=
  if (m.find? (fun p => p.1 == k)).isSome then
    m.map (fun p => if p.1 == k then (k, v) else p)
  else m ++ [(k, v)]

/-- find(byte 61, index 1): the env-decl heuristic of the entry parser; the
index of the first equals sign at position one or later. -/
def findEqFrom1 (t : Str) : Option Nat :=
  ((t.drop 1).findIdx? (fun c => c == 61)).map (fun i => i + 1)

/-- The token classification loop of a configuration entry (Configuration.cxx
lines 281-289): a token goes to the executable list when the executable list is
already nonempty, the token is empty, or it has no equals sign at index one or
later; otherwise it splits at that equals sign into an environment declaration. -/
def classifyTokens : List Str → List Str → List (Str × Str) → List Str × List (Str × Str)
  | [], exec, envs => (exec, envs)
  | t :: rest, exec, envs =>
    if exec != [] || t == [] || (findEqFrom1 t).isNone then
      classifyTokens rest (exec ++ [t]) envs
    else
      let e := (findEqFrom1 t).getD 0
      classifyTokens rest exec (envs ++ [(t.take e, t.drop (e + 1))])

/-- Builds one Command from an entry line (Configuration.cxx lines 273-292):
the first token is the name, the rest classify into environment declarations
and executable tokens, and an empty executable list defaults to the name. -/
def buildCommand (h : HostRec) (name : Str) (tokens : List Str) : CommandRec :=
  let (exec, envs) := classifyTokens tokens [] []
  { host := h, name := name, executable := if exec == [] then [name] else exec,
    environmentVariables := envs }

/-- std::stoul of an all-digit string. -/
def digitsToNat (s : Str) : Nat := s.foldl (fun acc c => acc * 10 + (c - 48)) 0

/-- The port-suffix handling of the host-section branch of Configuration::load
(Configuration.cxx lines 246-265): a colon introduces the port, which must be
all digits (else fatal), nonempty (else std::stoul throws), within unsigned
long range (else std::stoul throws) and below 65536 (else fatal); it then
becomes the current counter value.  Returns the port spec and the counter
value the new host is assigned from. -/
def parsePortSuffix (host : Str) (currentPort : Nat) : Except Unit (Option Nat × Nat) :=
  match host.findIdx? (fun c => c == 58) with
  | none => .ok (none, currentPort)
  | some colon =>
    let port := host.drop (colon + 1)
    if port.any (fun c => c < 48 || 57 < c) then .error ()
    else if port == [] then .error ()
    else if 18446744073709551615 < digitsToNat port then .error ()
    else if 65536 ≤ digitsToNat port then .error ()
    else .ok (some (digitsToNat port), digitsToNat port)

/-- The client-settings loop of Configuration::load (Configuration.cxx lines
207-226).  The parameters isAbsolute and mkAbsolute abstract
Utilities::isAbsolutePath and the file-system call
getAbsolutePath(absoluteWorkingPath + slash + value). -/
def loadClientGo (env : Str → Option Str) (mkAbsolute : Str → Str) (isAbsolute : Str → Bool)
    (cfg : Str) : Nat → Nat → Str → Except Unit (Nat × Str)
  | 0, _, _ => .error ()
  | fuel + 1, i, baseDir =>
    let i := skipWhitespace cfg i
    let c := charAt cfg i
    if c == 0 || c == 91 then .ok (i, baseDir)
    else if c == 35 then
      loadClientGo env mkAbsolute isAbsolute cfg fuel (skipComment cfg (i + 1)) baseDir
    else
      match getConfigurationValue env cfg i with
      | .error e => .error e
      | .ok (o1, key, value) =>
        match ensureRestOfLineEmpty cfg o1 with
        | .error e => .error e
        | .ok i2 =>
          if key == bytes "baseDirectory" then
            loadClientGo env mkAbsolute isAbsolute cfg fuel i2
              (if isAbsolute value then value else mkAbsolute value)
          else .error ()

/-- The server-settings loop of Configuration::load (Configuration.cxx lines
232-298).  currentHost is the shared_ptr to the host of the section being
parsed; an entry before any host section would dereference a null pointer in
the source and is modelled as an error (it is unreachable, because the client
loop only stops at a bracket or at the end of the input). -/
def loadServerGo (env : Str → Option Str) (cfg : Str) :
    Nat → Nat → Option HostRec → Nat → Config → Except Unit Config
  | 0, _, _, _, _ => .error ()
  | fuel + 1, i, currentHost, currentPort, conf =>
    let i := skipWhitespace cfg i
    let c := charAt cfg i
    if c == 0 then .ok conf
    else if c == 35 then
      loadServerGo env cfg fuel (skipComment cfg (i + 1)) currentHost currentPort conf
    else if c == 91 then
      match parseHost env cfg (skipNnws cfg (i + 1)) with
      | .error e => .error e
      | .ok (o1, host) =>
        match parseArguments env cfg o1 with
        | .error e => .error e
        | .ok (o2, options) =>
          match ensureRestOfLineEmpty cfg o2 with
          | .error e => .error e
          | .ok i2 =>
            match parsePortSuffix host currentPort with
            | .error e => .error e
            | .ok (portSpec, ctr) =>
              let colon := host.findIdx? (fun ch => ch == 58)
              let h : HostRec := { raw := host, hostname := host.take (colon.getD host.length),
                                   portSpec := portSpec, port := ctr, options := options }
              loadServerGo env cfg fuel i2 (some h) ((ctr + 1) % 65536)
                { conf with hosts := conf.hosts ++ [h] }
    else
      match parseArguments env cfg i with
      | .error e => .error e
      | .ok (o2, values) =>
        match ensureRestOfLineEmpty cfg o2 with
        | .error e => .error e
        | .ok i2 =>
          match values, currentHost with
          | name :: rest, some h =>
            let cmd := buildCommand h name rest
            let hcmds := (lookupStr conf.hostCommands h.hostname).getD []
            loadServerGo env cfg fuel i2 currentHost currentPort
              { conf with
                hostCommands := upsertStr conf.hostCommands h.hostname (upsertStr hcmds name cmd),
                commands := upsertStr conf.commands name cmd }
          | _, _ => .error ()

/-- Configuration::load (Configuration.cxx lines 198-301), with the default
starting port 1120 and the counter incremented as the unsigned short of the
source, wrapping modulo 65536. -/
def load (env : Str → Option Str) (mkAbsolute : Str → Str) (isAbsolute : Str → Bool)
    (absoluteWorkingPath : Str) (cfg : Str) : Except Unit Config :=
  match loadClientGo env mkAbsolute isAbsolute cfg (cfg.length + 2) 0 absoluteWorkingPath with
  | .error e => .error e
  | .ok (i, baseDir) => loadServerGo env cfg (cfg.length + 2) i none 1120 ⟨baseDir, [], [], []⟩

/-- A load wrapper with inert file-system parameters and empty environment,
used for concrete evaluations. -/
def load0 (cfg : Str) : Except Unit Config :=
  load (fun _ => none) (fun s => s) (fun _ => false) [] cfg

example : (load0 (bytes "[h]\ncmd\n")).isOk = true := by decide
example :
    (load0 (bytes "[ h:1895 ]\ncmd ENV=some-value exe arg\n")).map Config.hosts =
      .ok [⟨bytes "h:1895", bytes "h", some 1895, 1895, []⟩] := by rfl
example :
    ((load0 (bytes "[h]\ncmd ENV=some-value exe arg\n")).map fun c =>
        (lookupStr c.commands (bytes "cmd")).map fun cmd =>
          (cmd.environmentVariables, cmd.executable)) =
      .ok (some ([(bytes "ENV", bytes "some-value")], [bytes "exe", bytes "arg"])) := by rfl
example : (load0 (bytes "badoption=value")).isOk = false := by decide
example : (load0 (bytes "[ blah:65536 ]\n")).isOk = false := by decide
example : (load0 (bytes "[ blah:65_36 ]\n")).isOk = false := by decide
example : (load0 (bytes "[\nblah]")).isOk = false := by decide
example : (load0 (bytes "[blah\n]")).isOk = false := by decide
example : (load0 (bytes "[ blah:65535 ]\n")).isOk = true := by decide

/-! ## Claim C2 -/

/-- C2 (code bug): parseHexValue maps the hex letters a-f and A-F to 0..5
instead of 10..15 (the source omits the + 10), so in a double-quoted span the
escape backslash-x-4-a appends the byte 64, not 16*4+10 = 74 as the claim
states; both letter cases agree with each other, and a non-hex byte after
backslash-x is still a fatal parse error. -/
theorem C2_code_bug :
    parseHexValue 97 = .ok 0 ∧ parseHexValue 65 = .ok 0 ∧ parseHexValue 103 = .error () ∧
    parseString (fun _ => none) (bytes "\"\\x4a\"") 0 0 = .ok (6, [64]) ∧
    parseString (fun _ => none) (bytes "\"\\x4A\"") 0 0 = .ok (6, [64]) ∧
    parseString (fun _ => none) (bytes "\"\\x4g\"") 0 0 = .error () ∧
    (64 : Nat) ≠ 16 * 4 + 10 := by
  refine ⟨rfl, rfl, rfl, rfl, rfl, rfl, by decide⟩

/-! ## Claim C6 -/

/-- The entry-token shape that classifies as an environment declaration while
the executable list is still empty: nonempty with an equals sign at index one
or later. -/
def isEnvDeclToken (t : Str) : Bool := t != [] && (findEqFrom1 t).isSome

/-- The split of an environment-declaration token at its first equals sign at
index one or later. -/
def splitEqToken (t : Str) : Str × Str :=
  let e := (findEqFrom1 t).getD 0
  (t.take e, t.drop (e + 1))

/-- Once the executable list is nonempty every remaining token goes to it. -/
theorem classifyTokens_consumed (tokens : List Str) :
    ∀ exec envs, exec ≠ [] → classifyTokens tokens exec envs = (exec ++ tokens, envs) := by
  induction tokens with
  | nil => intro exec envs _; simp [classifyTokens]
  | cons t rest ih =>
    intro exec envs h
    unfold classifyTokens
    rw [if_pos (by simp [h])]
    rw [ih (exec ++ [t]) envs (by simp)]
    simp

/-- While the executable list is empty, the loop takes the leading
environment-declaration-shaped tokens and splits each of them, and the first
other token flips it to collecting executable tokens. -/
theorem classifyTokens_empty (tokens : List Str) :
    ∀ envs, classifyTokens tokens [] envs =
      (tokens.dropWhile isEnvDeclToken,
        envs ++ (tokens.takeWhile isEnvDeclToken).map splitEqToken) := by
  induction tokens with
  | nil => intro envs; simp [classifyTokens, List.dropWhile, List.takeWhile]
  | cons t rest ih =>
    intro envs
    unfold classifyTokens
    by_cases hd : isEnvDeclToken t = true
    · rw [if_neg ?_, ih]
      · rw [List.dropWhile_cons_of_pos hd, List.takeWhile_cons_of_pos hd]
        simp [splitEqToken]
      · simp only [isEnvDeclToken, Bool.and_eq_true, bne_iff_ne, ne_eq,
          Option.isSome_iff_ne_none] at hd
        simp [hd.1, hd.2]
    · rw [if_pos ?_]
      · rw [List.nil_append, classifyTokens_consumed rest [t] envs (by simp)]
        rw [List.dropWhile_cons_of_neg hd, List.takeWhile_cons_of_neg hd]
        simp
      · simp only [isEnvDeclToken, Bool.and_eq_true, bne_iff_ne, ne_eq,
          Option.isSome_iff_ne_none, not_and] at hd
        by_cases ht : t = []
        · simp [ht]
        · simp [ht, not_not.mp (hd ht)]

/-- C6 counterexample: with the executable list still empty, the token
with the bytes of the text =a=b, which begins with an equals sign, is
classified as an environment declaration splitting at its second equals sign
(spec =a, value b) instead of being appended to the executable list as the
claim states. -/
theorem C6_counterexample :
    findEqFrom1 (bytes "=a=b") = some 2 ∧
    ((load0 (bytes "[h]\ncmd =a=b\n")).map fun c =>
        (lookupStr c.commands (bytes "cmd")).map fun cmd =>
          (cmd.environmentVariables, cmd.executable)) =
      .ok (some ([(bytes "=a", bytes "b")], [bytes "cmd"])) :=
  ⟨by decide, by rfl⟩

/-- C6 amended: a token after the command name is an environment declaration
iff the executable list is still empty, the token is nonempty and it has an
equals sign at some index greater than zero, splitting there; every other
token, including an equals-initial token with no later equals sign, goes to
the executable list, and a token beginning with an equals sign that does have
a later equals sign is an environment declaration. -/
theorem C6_amended (h : HostRec) (name : Str) (tokens : List Str) :
    (buildCommand h name tokens).environmentVariables =
      (tokens.takeWhile isEnvDeclToken).map splitEqToken ∧
    (buildCommand h name tokens).executable =
      (if tokens.dropWhile isEnvDeclToken = [] then [name]
        else tokens.dropWhile isEnvDeclToken) ∧
    (∀ t, isEnvDeclToken t = (t != [] && (findEqFrom1 t).isSome)) := by
  unfold buildCommand
  rw [classifyTokens_empty tokens []]
  refine ⟨by simp, ?_, fun t => rfl⟩
  by_cases hd : tokens.dropWhile isEnvDeclToken = []
  · simp [hd]
  · simp [hd]

/-! ## Claims C3 and C7: invariants of the accepted catalog -/

/-- The port-allocation algorithm over the host sections, with the counter
arithmetic of the source (an unsigned short wrapping modulo 65536): a section
without a port suffix receives the counter, a section with one resets the
counter to the suffix and receives it; the counter increments after each
section.  Returns the assigned ports and the final counter. -/
def allocRun (ctr : Nat) : List (Option Nat) → List Nat × Nat
  | [] => ([], ctr)
  | none :: rest =>
    let r := allocRun ((ctr + 1) % 65536) rest
    (ctr :: r.1, r.2)
  | some p :: rest =>
    let r := allocRun ((p + 1) % 65536) rest
    (p :: r.1, r.2)

theorem allocRun_append (specs : List (Option Nat)) :
    ∀ ctr s, allocRun ctr (specs ++ [s]) =
      ((allocRun ctr specs).1 ++ [s.getD (allocRun ctr specs).2],
        (s.getD (allocRun ctr specs).2 + 1) % 65536) := by
  induction specs with
  | nil => intro ctr s; cases s <;> simp [allocRun]
  | cons x rest ih => intro ctr s; cases x <;> simp [allocRun, ih]

theorem parsePortSuffix_ok (host : Str) (cp : Nat) (ps : Option Nat) (ctr : Nat)
    (h : parsePortSuffix host cp = .ok (ps, ctr)) :
    ctr = ps.getD cp ∧ ∀ p, ps = some p → p < 65536 := by
  unfold parsePortSuffix at h
  split at h
  · cases h
    exact ⟨rfl, by simp⟩
  · simp only [] at h
    split at h
    · exact absurd h (by simp)
    · split at h
      · exact absurd h (by simp)
      · split at h
        · exact absurd h (by simp)
        · split at h
          · exact absurd h (by simp)
          · rename_i hrange
            cases h
            refine ⟨rfl, ?_⟩
            intro p hp
            cases hp
            omega

theorem parseHost_raw_ne (env : Str → Option Str) (cfg : Str) (o r : Nat) (host : Str)
    (h : parseHost env cfg o = .ok (r, host)) : host ≠ [] := by
  unfold parseHost at h
  split at h
  · exact absurd h (by simp)
  · simp only [] at h
    split at h
    · exact absurd h (by simp)
    · split at h
      · exact absurd h (by simp)
      · rename_i hne _
        cases h
        simpa using hne

/-- Invariant of the server-settings loop: whenever it returns a catalog, the
recorded hosts follow the port-allocation algorithm from the accumulated
state, every assigned port and every explicit port suffix is below 65536, and
every raw host string is nonempty. -/
theorem loadServerGo_invariant (env : Str → Option Str) (cfg : Str) :
    ∀ fuel i curHost curPort conf out,
      loadServerGo env cfg fuel i curHost curPort conf = .ok out →
      curPort < 65536 →
      allocRun 1120 (conf.hosts.map HostRec.portSpec) = (conf.hosts.map HostRec.port, curPort) →
      (∀ h ∈ conf.hosts, h.raw ≠ [] ∧ h.port < 65536 ∧ ∀ p, h.portSpec = some p → p < 65536) →
      (∃ c, c < 65536 ∧
        allocRun 1120 (out.hosts.map HostRec.portSpec) = (out.hosts.map HostRec.port, c)) ∧
      ∀ h ∈ out.hosts, h.raw ≠ [] ∧ h.port < 65536 ∧ ∀ p, h.portSpec = some p → p < 65536 := by
  intro fuel
  induction fuel with
  | zero =>
    intro i ch cp conf out h
    exact absurd h (by simp [loadServerGo])
  | succ fuel ih =>
    intro i ch cp conf out hrun hcp halloc hhosts
    unfold loadServerGo at hrun
    simp only [] at hrun
    split at hrun
    · cases hrun
      exact ⟨⟨cp, hcp, halloc⟩, hhosts⟩
    · split at hrun
      · exact ih _ _ _ _ _ hrun hcp halloc hhosts
      · split at hrun
        · -- host-section branch
          split at hrun
          · exact absurd hrun (by simp)
          · rename_i p1 hph
            split at hrun
            · exact absurd hrun (by simp)
            · split at hrun
              · exact absurd hrun (by simp)
              · split at hrun
                · exact absurd hrun (by simp)
                · rename_i portSpec ctr hpps
                  obtain ⟨hctr, hpslt⟩ := parsePortSuffix_ok _ _ _ _ hpps
                  have hraw := parseHost_raw_ne _ _ _ _ _ hph
                  have hctrlt : ctr < 65536 := by
                    cases hps : portSpec with
                    | none => rw [hps] at hctr; simpa [hctr] using hcp
                    | some p =>
                      have := hpslt p hps
                      rw [hps] at hctr
                      simpa [hctr] using this
                  refine ih _ _ _ _ _ hrun (Nat.mod_lt _ (by omega)) ?_ ?_
                  · simp only [List.map_append, List.map_cons, List.map_nil]
                    rw [allocRun_append, halloc]
                    simp [hctr]
                  · intro h hm
                    simp only [List.mem_append, List.mem_singleton] at hm
                    cases hm with
                    | inl hm => exact hhosts h hm
                    | inr hm =>
                      subst hm
                      exact ⟨hraw, hctrlt, hpslt⟩
        · -- entry branch
          split at hrun
          · exact absurd hrun (by simp)
          · split at hrun
            · exact absurd hrun (by simp)
            · split at hrun
              · exact ih _ _ _ _ _ hrun hcp halloc hhosts
              · exact absurd hrun (by simp)

/-- C3 counterexample: a host section with port suffix 0 is accepted and the
host receives port 0, outside the claimed range 1..65535; moreover after a
host with port 65535 the counter wraps to 0, so the next host without a
suffix also receives port 0. -/
theorem C3_counterexample :
    (load0 (bytes "[h:0]\n")).map Config.hosts =
      .ok [⟨bytes "h:0", bytes "h", some 0, 0, []⟩] ∧
    (load0 (bytes "[a:65535]\n[b]\n")).map Config.hosts =
      .ok [⟨bytes "a:65535", bytes "a", some 65535, 65535, []⟩,
        ⟨bytes "b", bytes "b", none, 0, []⟩] ∧
    ¬ ∀ hh ∈ [(⟨bytes "h:0", bytes "h", some 0, 0, []⟩ : HostRec)], 1 ≤ hh.port :=
  ⟨by rfl, by rfl, by decide⟩

/-- C3 amended: for every configuration accepted by the parser, every parsed
host has a port in the range 0 to 65535 inclusive, and the ports follow the
allocation algorithm with the counter held in an unsigned short: the counter
starts at 1120; a host section without a port suffix receives the counter and
the counter increments modulo 65536; a host section with a port suffix sets
the counter to that value (0 is accepted), receives it, and the counter
increments modulo 65536; a port suffix of 65536 or more is a fatal parse
error, so every recorded suffix is below 65536. -/
theorem C3_amended (env : Str → Option Str) (mkAbs : Str → Str) (isAbs : Str → Bool)
    (wp cfg : Str) (out : Config) (h : load env mkAbs isAbs wp cfg = .ok out) :
    (∃ c, c < 65536 ∧
      allocRun 1120 (out.hosts.map HostRec.portSpec) = (out.hosts.map HostRec.port, c)) ∧
    ∀ hh ∈ out.hosts, hh.port < 65536 ∧ ∀ p, hh.portSpec = some p → p < 65536 := by
  unfold load at h
  split at h
  · exact absurd h (by simp)
  · have inv := loadServerGo_invariant env cfg _ _ _ _ _ _ h (by omega) (by simp [allocRun])
      (by simp)
    exact ⟨inv.1, fun hh hm => (inv.2 hh hm).2⟩

/-- Witness for C3 amended at a concrete accepted configuration. -/
theorem C3_witness :
    (∃ c, c < 65536 ∧
      allocRun 1120 (([⟨bytes "a:1900", bytes "a", some 1900, 1900, []⟩,
          ⟨bytes "b", bytes "b", none, 1901, []⟩] : List HostRec).map HostRec.portSpec) =
        (([⟨bytes "a:1900", bytes "a", some 1900, 1900, []⟩,
          ⟨bytes "b", bytes "b", none, 1901, []⟩] : List HostRec).map HostRec.port, c)) ∧
    ∀ hh ∈ ([⟨bytes "a:1900", bytes "a", some 1900, 1900, []⟩,
        ⟨bytes "b", bytes "b", none, 1901, []⟩] : List HostRec),
      hh.port < 65536 ∧ ∀ p, hh.portSpec = some p → p < 65536 :=
  C3_amended (fun _ => none) (fun s => s) (fun _ => false) [] (bytes "[a:1900]\n[b]\n")
    ⟨[], [⟨bytes "a:1900", bytes "a", some 1900, 1900, []⟩,
      ⟨bytes "b", bytes "b", none, 1901, []⟩], [], []⟩ (by rfl)

/-- C7 counterexample: a host section whose bracketed string is the bytes of
the text :123 has an empty hostname (the span before the colon) yet loading
succeeds and assigns port 123, while the claim demands a fatal error. -/
theorem C7_counterexample :
    (load0 (bytes "[:123]\ncmd\n")).map Config.hosts =
      .ok [⟨bytes ":123", [], some 123, 123, []⟩] ∧
    (load0 (bytes "[]\n")).isOk = false :=
  ⟨by rfl, by rfl⟩

/-- C7 amended: the emptiness check applies to the whole bracketed host
string, not to the hostname before the port suffix: for every accepted
configuration every recorded host section has a nonempty bracketed string
(and a fully empty header is a fatal parse error with no partial catalog, as
the Except result shows), while a header of the form colon-port is accepted
with an empty hostname. -/
theorem C7_amended (env : Str → Option Str) (mkAbs : Str → Str) (isAbs : Str → Bool)
    (wp cfg : Str) (out : Config) (h : load env mkAbs isAbs wp cfg = .ok out) :
    ∀ hh ∈ out.hosts, hh.raw ≠ [] := by
  unfold load at h
  split at h
  · exact absurd h (by simp)
  · have inv := loadServerGo_invariant env cfg _ _ _ _ _ _ h (by omega) (by simp [allocRun])
      (by simp)
    exact fun hh hm => (inv.2 hh hm).1

/-- Witness for C7 amended at a concrete accepted configuration. -/
theorem C7_witness :
    (⟨bytes "h", bytes "h", none, 1120, []⟩ : HostRec).raw.isEmpty = false := by
  have h := C7_amended (fun _ => none) (fun s => s) (fun _ => false) [] (bytes "[h]\n")
    ⟨[], [⟨bytes "h", bytes "h", none, 1120, []⟩], [], []⟩ (by rfl)
    ⟨bytes "h", bytes "h", none, 1120, []⟩ (by simp)
  simpa using h

/-! ## Process.cxx: composing the child environment (claim C4) -/

/-- The map environmentVariables of Process::run: an unordered_map from names
to OptionalString values, modelled as an association list with unique keys. -/
abbrev EnvMap := List (Str × Option Str)

/-- Map lookup; the outer Option is absence from the map, the inner Option an
OptionalString that is not present. -/
def lookupOpt (m : EnvMap) (k : Str) : Option (Option Str) :=
  (m.find? (fun p => p.1 == k)).map (fun p => p.2)

/-- operator[] assignment: overwrite the entry or append a new one. -/
def insertOpt (m : EnvMap) (k : Str) (v : Option Str) : EnvMap :=
  if (m.find? (fun p => p.1 == k)).isSome then
    m.map (fun p => if p.1 == k then (k, v) else p)
  else m ++ [(k, v)]

/-- unordered_map::erase of a key. -/
def eraseOpt (m : EnvMap) (k : Str) : EnvMap := m.filter (fun p => p.1 != k)

/-- Utilities::getEnvironmentVariable(overrides, name) (Utilities.cxx lines
497-505): the override when it exists and is present, else the process
environment of the server. -/
def getEnvOverrides (m : EnvMap) (serverEnv : Str → Option Str) (name : Str) : Option Str :=
  match lookupOpt m name with
  | some (some v) => some v
  | _ => serverEnv name

/-- The name bound by a declaration spec: a leading byte 61 or 63 (equals sign
or question mark) is stripped; reading the first byte of an empty spec yields
the NUL terminator as in the source. -/
def declKey (spec : Str) : Str :=
  if charAt spec 0 == 61 || charAt spec 0 == 63 then spec.drop 1 else spec

/-- One step of the resolution loop of Process::run (Process.cxx lines
538-559) for the declaration d = (spec, value); clientRecv is the map of
client-provided variables (whose values are plain strings, hence always
present) and serverEnv the server's own environment. -/
def resolveStep (clientRecv serverEnv : Str → Option Str) (m : EnvMap) (d : Str × Str) :
    EnvMap :=
  if charAt d.1 0 == 61 then
    let name := d.1.drop 1
    insertOpt m name
      (if d.2 == [] then serverEnv name
        else some (substituteEnvironmentVariables (getEnvOverrides m serverEnv) d.2))
  else
    let isOptional := charAt d.1 0 == 63
    let name := if isOptional then d.1.drop 1 else d.1
    match clientRecv name with
    | some v => insertOpt m name (some v)
    | none =>
      insertOpt m name
        (if d.2 == [] && isOptional then getEnvOverrides m serverEnv name
          else some (substituteEnvironmentVariables (getEnvOverrides m serverEnv) d.2))

/-- The whole resolution loop over the declarations in declared order. -/
def resolveAll (clientRecv serverEnv : Str → Option Str) (decls : List (Str × Str)) : EnvMap :=
  decls.foldl (resolveStep clientRecv serverEnv) []

/-- The value one resolution step binds to its key. -/
def resolvedValue (clientRecv serverEnv : Str → Option Str) (m : EnvMap) (d : Str × Str) :
    Option Str :=
  if charAt d.1 0 == 61 then
    (if d.2 == [] then serverEnv (d.1.drop 1)
      else some (substituteEnvironmentVariables (getEnvOverrides m serverEnv) d.2))
  else
    let isOptional := charAt d.1 0 == 63
    let name := if isOptional then d.1.drop 1 else d.1
    match clientRecv name with
    | some v => some v
    | none =>
      (if d.2 == [] && isOptional then getEnvOverrides m serverEnv name
        else some (substituteEnvironmentVariables (getEnvOverrides m serverEnv) d.2))

/-- The emission loop of Process::run (Process.cxx lines 561-572): walk the
declarations in order, emit name=value for a key whose resolved value is
present, and erase the key so it is emitted at most once. -/
def buildEnvStrings (m : EnvMap) : List (Str × Str) → List (Str × Str)
  | [] => []
  | d :: rest =>
    let name := declKey d.1
    match lookupOpt m name with
    | some (some v) => (name, v) :: buildEnvStrings (eraseOpt m name) rest
    | _ => buildEnvStrings m rest

/-- The composed child environment of Process::run: resolve all declarations,
then emit the strings. -/
def composeChildEnvironment (clientRecv serverEnv : Str → Option Str)
    (decls : List (Str × Str)) : List (Str × Str) :=
  buildEnvStrings (resolveAll clientRecv serverEnv decls) decls

/-- Whether a key has a present resolved value in the map. -/
def present (m : EnvMap) (n : Str) : Bool :=
  match lookupOpt m n with
  | some (some _) => true
  | _ => false

/-- The order the claim describes: keys in order of their first declaration,
skipping keys whose resolved value is absent, each key at most once. -/
def firstPresentKeys (pres : Str → Bool) (seen : List Str) : List (Str × Str) → List Str
  | [] => []
  | d :: rest =>
    let n := declKey d.1
    if n ∈ seen then firstPresentKeys pres seen rest
    else if pres n then n :: firstPresentKeys pres (n :: seen) rest
    else firstPresentKeys pres seen rest

theorem find?_map_insert_hit (k : Str) (v : Option Str) (m : EnvMap)
    (h : (m.find? (fun p => p.1 == k)).isSome = true) :
    List.find? (fun p => p.1 == k) (m.map (fun p => if p.1 == k then (k, v) else p)) =
      some (k, v) := by
  induction m with
  | nil => simp at h
  | cons p m ih =>
    by_cases hp : p.1 = k
    · rw [List.map_cons, if_pos (by simp [hp]), List.find?_cons_of_pos _ (by simp)]
    · have hp' : (p.1 == k) = false := beq_false_of_ne hp
      rw [List.find?_cons_of_neg _ (by simp [hp'])] at h
      rw [List.map_cons, if_neg (by simp [hp']), List.find?_cons_of_neg _ (by simp [hp'])]
      exact ih h

theorem find?_map_insert_miss (k k' : Str) (v : Option Str) (m : EnvMap) (h : k' ≠ k) :
    List.find? (fun p => p.1 == k') (m.map (fun p => if p.1 == k then (k, v) else p)) =
      List.find? (fun p => p.1 == k') m := by
  induction m with
  | nil => simp
  | cons p m ih =>
    by_cases hp : p.1 = k
    · have h1 : (p.1 == k') = false := beq_false_of_ne (by rw [hp]; exact (Ne.symm h))
      have h2 : (k == k') = false := beq_false_of_ne (Ne.symm h)
      rw [List.map_cons, if_pos (by simp [hp]), List.find?_cons_of_neg _ (by simp [h2]),
        List.find?_cons_of_neg _ (by simp [h1])]
      exact ih
    · have hp2 : ((p.1 == k) = true) = False := by simp [hp]
      by_cases hp' : p.1 = k'
      · rw [List.map_cons, if_neg (by simp [hp]), List.find?_cons_of_pos _ (by simp [hp']),
          List.find?_cons_of_pos _ (by simp [hp'])]
      · rw [List.map_cons, if_neg (by simp [hp]),
          List.find?_cons_of_neg _ (by simp [beq_false_of_ne hp']),
          List.find?_cons_of_neg _ (by simp [beq_false_of_ne hp'])]
        exact ih

theorem lookupOpt_insert_self (m : EnvMap) (k : Str) (v : Option Str) :
    lookupOpt (insertOpt m k v) k = some v := by
  unfold insertOpt lookupOpt
  by_cases hs : (m.find? (fun p => p.1 == k)).isSome = true
  · rw [if_pos hs, find?_map_insert_hit k v m hs]
    rfl
  · rw [if_neg hs, List.find?_append]
    have hnone : m.find? (fun p => p.1 == k) = none := by
      cases hfind : m.find? (fun p => p.1 == k) with
      | none => rfl
      | some q => rw [hfind] at hs; simp at hs
    rw [hnone]
    simp [List.find?]

theorem lookupOpt_insert_ne (m : EnvMap) (k k' : Str) (v : Option Str) (h : k' ≠ k) :
    lookupOpt (insertOpt m k v) k' = lookupOpt m k' := by
  unfold insertOpt lookupOpt
  by_cases hs : (m.find? (fun p => p.1 == k)).isSome = true
  · rw [if_pos hs, find?_map_insert_miss k k' v m h]
  · rw [if_neg hs, List.find?_append]
    have hlast : List.find? (fun p => p.1 == k') [(k, v)] = none := by
      simp [List.find?, beq_false_of_ne (Ne.symm h)]
    rw [hlast]
    cases List.find? (fun p => p.1 == k') m <;> rfl

theorem lookupOpt_erase_self (m : EnvMap) (k : Str) :
    lookupOpt (eraseOpt m k) k = none := by
  unfold eraseOpt lookupOpt
  rw [List.find?_eq_none.mpr]
  · rfl
  · intro x hx
    have := (List.mem_filter.mp hx).2
    simp only [bne_iff_ne, ne_eq] at this
    simp [this]

theorem lookupOpt_erase_ne (m : EnvMap) (k k' : Str) (h : k' ≠ k) :
    lookupOpt (eraseOpt m k) k' = lookupOpt m k' := by
  unfold eraseOpt lookupOpt
  congr 1
  induction m with
  | nil => rfl
  | cons p m ih =>
    by_cases hp : p.1 = k
    · have h1 : (p.1 == k') = false := beq_false_of_ne (by rw [hp]; exact (Ne.symm h))
      rw [List.filter_cons_of_neg (by simp [hp]), List.find?_cons_of_neg _ (by simp [h1])]
      exact ih
    · by_cases hp' : p.1 = k'
      · rw [List.filter_cons_of_pos (by simp [hp]), List.find?_cons_of_pos _ (by simp [hp']),
          List.find?_cons_of_pos _ (by simp [hp'])]
      · rw [List.filter_cons_of_pos (by simp [hp]),
          List.find?_cons_of_neg _ (by simp [beq_false_of_ne hp']),
          List.find?_cons_of_neg _ (by simp [beq_false_of_ne hp'])]
        exact ih

theorem resolveStep_eq_insert (cr se : Str → Option Str) (m : EnvMap) (d : Str × Str) :
    resolveStep cr se m d = insertOpt m (declKey d.1) (resolvedValue cr se m d) := by
  unfold resolveStep resolvedValue declKey
  by_cases h61 : (charAt d.1 0 == 61) = true
  · simp [h61]
  · by_cases h63 : (charAt d.1 0 == 63) = true
    · simp only [h61, h63]
      simp only [Bool.false_eq_true, if_false, Bool.false_or, if_true]
      cases hcr : cr (List.drop 1 d.1) <;> simp [hcr]
    · simp only [h61, h63]
      simp only [Bool.false_eq_true, if_false, Bool.false_or]
      cases hcr : cr d.1 <;> simp [hcr]

theorem buildEnvStrings_all (decls : List (Str × Str)) :
    ∀ m, ∀ nv ∈ buildEnvStrings m decls, lookupOpt m nv.1 = some (some nv.2) := by
  induction decls with
  | nil => intro m nv h; simp [buildEnvStrings] at h
  | cons d rest ih =>
    intro m nv hnv
    unfold buildEnvStrings at hnv
    simp only [] at hnv
    split at hnv
    · rename_i v hl
      cases hnv with
      | head => exact hl
      | tail _ htail =>
        have hv := ih (eraseOpt m (declKey d.1)) nv htail
        have hne : nv.1 ≠ declKey d.1 := by
          intro he
          rw [he, lookupOpt_erase_self] at hv
          exact absurd hv (by simp)
        rw [← lookupOpt_erase_ne m (declKey d.1) nv.1 hne]
        exact hv
    · exact ih m nv hnv

theorem firstPresentKeys_nodup (decls : List (Str × Str)) :
    ∀ pres seen, (firstPresentKeys pres seen decls).Nodup ∧
      ∀ x ∈ firstPresentKeys pres seen decls, x ∉ seen := by
  induction decls with
  | nil => intro pres seen; exact ⟨List.nodup_nil, by simp [firstPresentKeys]⟩
  | cons d rest ih =>
    intro pres seen
    unfold firstPresentKeys
    simp only []
    by_cases hseen : declKey d.1 ∈ seen
    · rw [if_pos hseen]
      exact ih pres seen
    · rw [if_neg hseen]
      by_cases hp : pres (declKey d.1) = true
      · rw [if_pos hp]
        obtain ⟨hnd, hnotin⟩ := ih pres (declKey d.1 :: seen)
        refine ⟨List.nodup_cons.mpr ⟨?_, hnd⟩, ?_⟩
        · intro hmem
          exact absurd (List.mem_cons_self _ _) (hnotin _ hmem)
        · intro x hx
          cases hx with
          | head => exact hseen
          | tail _ hx =>
            have := hnotin x hx
            intro hxs
            exact this (List.mem_cons_of_mem _ hxs)
      · rw [if_neg hp]
        exact ih pres seen

theorem buildEnvStrings_keys (decls : List (Str × Str)) :
    ∀ (m : EnvMap) (pres : Str → Bool) (seen : List Str),
      (∀ x, present m x = true ↔ (pres x = true ∧ x ∉ seen)) →
      (buildEnvStrings m decls).map Prod.fst = firstPresentKeys pres seen decls := by
  induction decls with
  | nil => intro m pres seen _; rfl
  | cons d rest ih =>
    intro m pres seen hinv
    unfold buildEnvStrings firstPresentKeys
    simp only []
    by_cases hseen : declKey d.1 ∈ seen
    · have hpf : present m (declKey d.1) = false := by
        cases hpm : present m (declKey d.1) with
        | false => rfl
        | true => exact absurd ((hinv _).mp hpm).2 (by simp [hseen])
      rw [if_pos hseen]
      unfold present at hpf
      split at hpf
      · exact absurd hpf (by simp)
      · exact ih m pres seen hinv
    · rw [if_neg hseen]
      by_cases hp : pres (declKey d.1) = true
      · have hpt : present m (declKey d.1) = true := (hinv _).mpr ⟨hp, hseen⟩
        rw [if_pos hp]
        unfold present at hpt
        split at hpt
        · rename_i v hl
          rw [List.map_cons]
          congr 1
          refine ih (eraseOpt m (declKey d.1)) pres (declKey d.1 :: seen) ?_
          intro x
          by_cases hx : x = declKey d.1
          · subst hx
            unfold present
            rw [lookupOpt_erase_self]
            simp
          · unfold present
            rw [lookupOpt_erase_ne m _ x hx]
            rw [show (match lookupOpt m x with
                | some (some _) => true | _ => false) = present m x from rfl]
            rw [hinv x]
            simp [hx]
        · exact absurd hpt (by simp)
      · have hpf : present m (declKey d.1) = false := by
          cases hpm : present m (declKey d.1) with
          | false => rfl
          | true => exact absurd ((hinv _).mp hpm).1 hp
        rw [if_neg hp]
        unfold present at hpf
        split at hpf
        · exact absurd hpf (by simp)
        · exact ih m pres seen hinv

/-- C4: when the server composes the child environment by walking the
declarations of a command in declared order, a variable is emitted only when
its resolved value is present (missing optionals are skipped silently, as the
all-clause states), each key is emitted at most once (the emitted keys are
Nodup), the emitted ordering follows the first declaration of each key
(firstPresentKeys), and a later declaration of the same key overrides an
earlier one during resolution (the resolved map after appending a declaration
is exactly the insert produced by that last declaration, whose key then looks
up to that declaration's resolved value). -/
theorem C4_child_environment (clientRecv serverEnv : Str → Option Str)
    (decls : List (Str × Str)) :
    ((composeChildEnvironment clientRecv serverEnv decls).all fun nv =>
        lookupOpt (resolveAll clientRecv serverEnv decls) nv.1 == some (some nv.2)) = true ∧
    ((composeChildEnvironment clientRecv serverEnv decls).map Prod.fst).Nodup ∧
    (composeChildEnvironment clientRecv serverEnv decls).map Prod.fst =
      firstPresentKeys (present (resolveAll clientRecv serverEnv decls)) [] decls ∧
    (∀ ds d, resolveAll clientRecv serverEnv (ds ++ [d]) =
        insertOpt (resolveAll clientRecv serverEnv ds) (declKey d.1)
          (resolvedValue clientRecv serverEnv (resolveAll clientRecv serverEnv ds) d)) ∧
    (∀ (m : EnvMap) (d : Str × Str),
        lookupOpt (resolveStep clientRecv serverEnv m d) (declKey d.1) =
          some (resolvedValue clientRecv serverEnv m d)) := by
  have hkeys : (composeChildEnvironment clientRecv serverEnv decls).map Prod.fst =
      firstPresentKeys (present (resolveAll clientRecv serverEnv decls)) [] decls :=
    buildEnvStrings_keys decls _ _ [] (by intro x; simp)
  refine ⟨?_, ?_, hkeys, ?_, ?_⟩
  · rw [List.all_eq_true]
    intro nv hnv
    rw [beq_iff_eq]
    exact buildEnvStrings_all decls _ nv hnv
  · rw [hkeys]
    exact (firstPresentKeys_nodup decls _ []).1
  · intro ds d
    rw [resolveAll, List.foldl_append]
    simp only [List.foldl_cons, List.foldl_nil]
    rw [resolveStep_eq_insert]
    rfl
  · intro m d
    rw [resolveStep_eq_insert, lookupOpt_insert_self]

/-! ## Process.cxx: the connect retry loop of runRemoteCommand (claim C5) -/

/-- How the connect loop ended in the model. -/
inductive ConnectOutcome where
  /-- Socket::connect produced a valid socket. -/
  | connected
  /-- The deadline had passed with the socket still invalid: fatal error. -/
  | fatal
  /-- The supplied outcome list ended while the loop would keep retrying. -/
  | retrying
deriving Repr, DecidableEq

/-- Whether now has reached the deadline; none models time_point::max, which
is never reached. -/
def deadlineReached (endTime : Option Nat) (now : Nat) : Bool :=
  match endTime with
  | some e => e ≤ now
  | none => false

/-- The connect retry loop of Process::runRemoteCommand (Process.cxx lines
277-298) over an abstract clock: now is the elapsed time in milliseconds
(attempts themselves take no model time), endTime the deadline (none models
time_point::max for a negative timeout), backoff the current backoff value,
and outcomes tells for each call of Socket::connect whether it produced a
valid socket.  Returns the recorded sleep durations and how the loop ended. -/
def connectLoop (endTime : Option Nat) :
    List Bool → Nat → Nat → List Nat → List Nat × ConnectOutcome
  | [], _, _, sleeps => (sleeps, .retrying)
  | ok :: rest, now, backoff, sleeps =>
    if ok then (sleeps, .connected)
    else if deadlineReached endTime now then (sleeps, .fatal)
    else
      let b2 := backoff * 2
      let b := if 1000 < b2 then 1000 else b2
      let sleepUntil := now + b
      let newNow := match endTime with | some e => min sleepUntil e | none => sleepUntil
      connectLoop endTime rest newNow b (sleeps ++ [newNow - now])

/-- The connect phase of runRemoteCommand: the deadline is now plus the
configured timeout when that is nonnegative, none (time_point::max) otherwise,
and the backoff variable starts at 16 ms. -/
def runRemoteConnect (timeoutMs : Int) (outcomes : List Bool) : List Nat × ConnectOutcome :=
  connectLoop (if 0 ≤ timeoutMs then some timeoutMs.toNat else none) outcomes 0 16 []

/-- The sleep-duration sequence the amended claim describes, written from its
words: with n failed attempts remaining and a budget of remaining milliseconds
(none meaning no deadline), each sleep doubles the backoff first, caps it at
1000 ms, and never runs past the remaining budget; once the budget is
exhausted no further sleep happens. -/
def specSleeps (budget : Option Nat) (backoff : Nat) : Nat → List Nat
  | 0 => []
  | n + 1 =>
    match budget with
    | some 0 => []
    | _ =>
      let b2 := backoff * 2
      let b := if 1000 < b2 then 1000 else b2
      let d := match budget with | some r => min b r | none => b
      d :: specSleeps (match budget with | some r => some (r - d) | none => none) b n

/-- The loop outcome determined by the attempt outcomes when there is no
deadline: connected when a successful attempt follows the failures. -/
def specOutcome (outcomes : List Bool) : ConnectOutcome :=
  if outcomes.dropWhile (fun x => x == false) = [] then .retrying else .connected

theorem connectLoop_none (outcomes : List Bool) :
    ∀ now backoff acc, connectLoop none outcomes now backoff acc =
      (acc ++ specSleeps none backoff (outcomes.takeWhile (fun x => x == false)).length,
        specOutcome outcomes) := by
  induction outcomes with
  | nil => intro now backoff acc; simp [connectLoop, specSleeps, specOutcome]
  | cons ok rest ih =>
    intro now backoff acc
    cases ok with
    | true => simp [connectLoop, specOutcome, List.dropWhile_cons, specSleeps]
    | false =>
      have hlen : ((false :: rest).takeWhile (fun x => x == false)).length =
          (rest.takeWhile (fun x => x == false)).length + 1 := by
        rw [List.takeWhile_cons_of_pos (by simp)]
        rfl
      have hout : specOutcome (false :: rest) = specOutcome rest := by
        unfold specOutcome
        rw [List.dropWhile_cons_of_pos (by simp)]
      have hss : specSleeps none backoff ((rest.takeWhile (fun x => x == false)).length + 1) =
          (if 1000 < backoff * 2 then 1000 else backoff * 2) ::
            specSleeps none (if 1000 < backoff * 2 then 1000 else backoff * 2)
              ((rest.takeWhile (fun x => x == false)).length) := rfl
      rw [hlen, hout, hss]
      unfold connectLoop
      rw [if_neg (by simp), if_neg (by simp [deadlineReached])]
      simp only []
      rw [ih, Nat.add_sub_cancel_left]
      simp

theorem connectLoop_some (outcomes : List Bool) :
    ∀ r now backoff acc res,
      connectLoop (some (now + r)) outcomes now backoff acc = res →
      res.1 = acc ++ specSleeps (some r) backoff
        (outcomes.takeWhile (fun x => x == false)).length ∧
      (res.2 = .fatal → res.1.sum = acc.sum + r) := by
  induction outcomes with
  | nil =>
    intro r now backoff acc res h
    cases h
    simp [connectLoop, specSleeps]
  | cons ok rest ih =>
    intro r now backoff acc res h
    cases ok with
    | true =>
      cases h
      simp [connectLoop, specSleeps]
    | false =>
      unfold connectLoop at h
      rw [if_neg (by simp)] at h
      by_cases hr : r = 0
      · subst hr
        rw [if_pos (by simp [deadlineReached])] at h
        cases h
        rw [List.takeWhile_cons_of_pos (by simp)]
        simp [specSleeps]
      · rw [if_neg (by simp [deadlineReached]; omega)] at h
        simp only [] at h
        obtain ⟨q, rfl⟩ : ∃ q, r = q + 1 := ⟨r - 1, by omega⟩
        have hlen : ((false :: rest).takeWhile (fun x => x == false)).length =
            (rest.takeWhile (fun x => x == false)).length + 1 := by
          rw [List.takeWhile_cons_of_pos (by simp)]
          rfl
        have hss : specSleeps (some (q + 1)) backoff
            ((rest.takeWhile (fun x => x == false)).length + 1) =
            min (if 1000 < backoff * 2 then 1000 else backoff * 2) (q + 1) ::
              specSleeps
                (some (q + 1 - min (if 1000 < backoff * 2 then 1000 else backoff * 2) (q + 1)))
                (if 1000 < backoff * 2 then 1000 else backoff * 2)
                ((rest.takeWhile (fun x => x == false)).length) := rfl
        generalize hb : (if 1000 < backoff * 2 then 1000 else backoff * 2) = b at h hss
        have hmin : min (now + b) (now + (q + 1)) = now + min b (q + 1) := by
          by_cases hbr : b ≤ q + 1
          · rw [Nat.min_eq_left (by omega), Nat.min_eq_left hbr]
          · rw [Nat.min_eq_right (by omega), Nat.min_eq_right (by omega)]
        rw [hmin, Nat.add_sub_cancel_left] at h
        have hmr : min b (q + 1) ≤ q + 1 := Nat.min_le_right b (q + 1)
        have hsplit : now + (q + 1) = now + min b (q + 1) + (q + 1 - min b (q + 1)) := by omega
        rw [hsplit] at h
        obtain ⟨h1, h2⟩ := ih (q + 1 - min b (q + 1)) (now + min b (q + 1)) b
          (acc ++ [min b (q + 1)]) res h
        refine ⟨?_, ?_⟩
        · rw [h1, hlen, hss]
          simp
        · intro hf
          have hs := h2 hf
          rw [hs]
          simp [List.sum_append]
          omega

/-- C5 counterexample: the loop doubles the backoff variable before sleeping,
so with the 16 ms seed the first recorded sleep duration is 32 ms, not the
16 ms the claim states. -/
theorem C5_counterexample :
    (runRemoteConnect (-1) [false, true]).1 = [32] ∧ (32 : Nat) ≠ 16 :=
  ⟨by rfl, by decide⟩

/-- C5 amended: the retry loop sleeps for the durations of the sequence that
starts at 32 ms (the 16 ms seed is doubled before the first sleep), doubles up
to a cap of 1000 ms and is truncated to the remaining time budget; with a
negative timeout (no deadline) the loop never fails, and when it does end in
the fatal error the timeout was nonnegative and the slept time has consumed
exactly the whole budget. -/
theorem C5_amended (timeoutMs : Int) (outcomes : List Bool) :
    (runRemoteConnect timeoutMs outcomes).1 =
      specSleeps (if 0 ≤ timeoutMs then some timeoutMs.toNat else none) 16
        ((outcomes.takeWhile (fun x => x == false)).length) ∧
    (timeoutMs < 0 → (runRemoteConnect timeoutMs outcomes).2 ≠ .fatal) ∧
    ((runRemoteConnect timeoutMs outcomes).2 = .fatal →
      0 ≤ timeoutMs ∧ (runRemoteConnect timeoutMs outcomes).1.sum = timeoutMs.toNat) := by
  unfold runRemoteConnect
  by_cases ht : 0 ≤ timeoutMs
  · rw [if_pos ht]
    obtain ⟨h1, h2⟩ := connectLoop_some outcomes timeoutMs.toNat 0 16 []
      (connectLoop (some timeoutMs.toNat) outcomes 0 16 [])
      (by rw [Nat.zero_add])
    refine ⟨by simpa using h1, fun hneg => absurd ht (by omega), fun hf => ⟨ht, ?_⟩⟩
    · have := h2 hf
      simpa using this
  · rw [if_neg ht]
    rw [connectLoop_none outcomes 0 16 []]
    refine ⟨by simp, fun _ => ?_, fun hf => absurd hf ?_⟩ <;>
      · simp only [specOutcome]
        split <;> simp

/-- Witness for C5 amended: with no deadline and one failed attempt the
recorded sleeps are the single 32 ms entry of the spec sequence and the loop
is not fatal. -/
theorem C5_witness :
    (runRemoteConnect (-1) [false, true]).1 = specSleeps none 16 1 ∧
    (runRemoteConnect (-1) [false, true]).2 ≠ ConnectOutcome.fatal :=
  ⟨by simpa using (C5_amended (-1) [false, true]).1,
    (C5_amended (-1) [false, true]).2.1 (by decide)⟩

/-! ## Process.cxx: the server relay loop and the EXIT_CODE frame (claim C8)

The relay loop of Process::run (lines 801-956) multiplexes the child's
termination, its stdout and stderr pipes, the socket and the pending-stdin
drain.  The model linearises each loop iteration to one observed event; the
loop runs while any of the three pipe handles is open, and after it finishes
normally the epilogue (lines 958-994) sends the single EXIT_CODE frame when
the child exited normally. -/

/-- A wire frame of the model: the payload type byte and the payload bytes. -/
abbrev Frame := Nat × Str

/-- The 4 little-endian bytes of a nonnegative length or value. -/
def encodeLE4 (n : Nat) : Str :=
  [n % 256, n / 256 % 256, n / 65536 % 256, n / 16777216 % 256]

/-- The EXIT_CODE frame (Process.cxx line 992): the bytes are
uint8_t(exitCode >> 8k) for k = 0..3, where the arithmetic right shift of the
signed int is the floor division and the uint8_t conversion the nonnegative
remainder modulo 256. -/
def exitFrame (code : Int) : Frame :=
  (8, [(code.emod 256).toNat, ((code.fdiv 256).emod 256).toNat,
    ((code.fdiv 65536).emod 256).toNat, ((code.fdiv 16777216).emod 256).toNat])

/-- The events one iteration of the relay loop can observe. -/
inductive SEvent where
  /-- waitpid reports the child gone: some code when it exited normally with
  that status, none when it was killed by a signal. -/
  | childExit (status : Option Int)
  /-- The child's stdout delivered these bytes; the empty list is EOF. -/
  | stdoutRead (bs : Str)
  /-- The child's stderr delivered these bytes; the empty list is EOF. -/
  | stderrRead (bs : Str)
  /-- The receive socket yields a frame of this type and payload. -/
  | sockFrame (t : Nat) (payload : Str)
  /-- The receive socket reports that the socket was closed. -/
  | sockClosed
  /-- The non-blocking write to the child's stdin accepted k bytes. -/
  | stdinWrite (k : Nat)
  /-- The write to the child's stdin found the pipe closed. -/
  | stdinBroken
deriving Repr, DecidableEq

/-- The loop state: which pipe endpoints are open, whether and how the child
has been reaped, the pending stdin buffer and the close-stdin request flag. -/
structure SState where
  stdinOpen : Bool
  stdoutOpen : Bool
  stderrOpen : Bool
  exited : Option (Option Int)
  stdInData : Str
  closeStdIn : Bool
deriving Repr, DecidableEq

/-- The state on entering the relay loop. -/
def initialSState : SState := ⟨true, true, true, none, [], false⟩

/-- The end-of-iteration stdin-close check (Process.cxx lines 950-955). -/
def applyCloseStdIn (st : SState) : SState :=
  if st.closeStdIn && st.stdInData == [] then
    { st with stdinOpen := false, closeStdIn := false }
  else st

/-- The result of one loop iteration. -/
inductive StepResult where
  /-- Continue looping in this state, having sent these frames. -/
  | next (st : SState) (frames : List Frame)
  /-- The child was terminated and the session jumps to terminateServer. -/
  | killed (frames : List Frame)
deriving Repr, DecidableEq

/-- One iteration of the relay loop of Process::run observing one event
(Process.cxx lines 801-956).  Frame type bytes: 4 STDIN_DATA, 5 STDOUT_DATA,
6 STDERR_DATA, 7 TERMINATE_COMMAND, 8 EXIT_CODE. -/
def serverStep (st : SState) : SEvent → StepResult
  | .childExit status =>
    if st.exited.isSome then .next (applyCloseStdIn st) []
    else .next (applyCloseStdIn
      { st with stdInData := [], stdinOpen := false, exited := some status }) []
  | .stdoutRead bs =>
    if !st.stdoutOpen then .next (applyCloseStdIn st) []
    else .next (applyCloseStdIn (if bs == [] then { st with stdoutOpen := false } else st))
      [(5, bs)]
  | .stderrRead bs =>
    if !st.stderrOpen then .next (applyCloseStdIn st) []
    else .next (applyCloseStdIn (if bs == [] then { st with stderrOpen := false } else st))
      [(6, bs)]
  | .sockFrame t payload =>
    if t == 4 then
      if !st.stdinOpen then .next (applyCloseStdIn st) []
      else if payload == [] then .next (applyCloseStdIn { st with closeStdIn := true }) []
      else .next (applyCloseStdIn { st with stdInData := st.stdInData ++ payload }) []
    else .killed []
  | .sockClosed => .killed []
  | .stdinWrite k =>
    if st.stdInData == [] then .next (applyCloseStdIn st) []
    else .next (applyCloseStdIn { st with stdInData := st.stdInData.drop k }) []
  | .stdinBroken =>
    if st.stdInData == [] then .next (applyCloseStdIn st) []
    else .next (applyCloseStdIn { st with stdinOpen := false, stdInData := [] }) [(4, [])]

/-- How the relay loop ended. -/
inductive LoopResult where
  /-- All three pipe handles closed: the loop exits normally in this state. -/
  | finished (st : SState)
  /-- The session jumped to terminateServer. -/
  | killed
  /-- The event list ended while the loop would continue. -/
  | stuck
deriving Repr, DecidableEq

/-- The relay loop: runs while any of stdin, stdout, stderr is open. -/
def serverLoop : SState → List SEvent → List Frame × LoopResult
  | st, [] =>
    if !(st.stdinOpen || st.stdoutOpen || st.stderrOpen) then ([], .finished st)
    else ([], .stuck)
  | st, e :: rest =>
    if !(st.stdinOpen || st.stdoutOpen || st.stderrOpen) then ([], .finished st)
    else
      match serverStep st e with
      | .killed fs => (fs, .killed)
      | .next st2 fs =>
        let r := serverLoop st2 rest
        (fs ++ r.1, r.2)

/-- The result of a whole session. -/
inductive SessionResult where
  /-- The loop finished and the child completed; EXIT_CODE was sent exactly
  when the exit status is a normal one. -/
  | completed (status : Option Int)
  /-- The session ended through terminateServer; no EXIT_CODE is sent. -/
  | killed
  /-- The event list was exhausted. -/
  | stuck
deriving Repr, DecidableEq

/-- A session of Process::run after the child was spawned: run the relay loop,
then the epilogue (Process.cxx lines 958-994) waits for the child when it has
not been reaped yet (finalStatus is what that wait reports) and sends the
EXIT_CODE frame only on normal termination. -/
def serverSession (evs : List SEvent) (finalStatus : Option Int) :
    List Frame × SessionResult :=
  match serverLoop initialSState evs with
  | (frames, .killed) => (frames, .killed)
  | (frames, .stuck) => (frames, .stuck)
  | (frames, .finished st) =>
    match (match st.exited with | some s => s | none => finalStatus) with
    | some code => (frames ++ [exitFrame code], .completed (some code))
    | none => (frames, .completed none)

theorem serverStep_no_exit_frame (st : SState) (e : SEvent) :
    (∀ st2 fs, serverStep st e = .next st2 fs → ∀ f ∈ fs, f.1 ≠ 8) ∧
    (∀ fs, serverStep st e = .killed fs → ∀ f ∈ fs, f.1 ≠ 8) := by
  constructor
  · intro st2 fs h f hf
    cases e <;> unfold serverStep at h <;> repeat' split at h
    all_goals (cases h <;> simp at hf)
    all_goals simp [hf]
  · intro fs h f hf
    cases e <;> unfold serverStep at h <;> repeat' split at h
    all_goals (cases h <;> simp at hf)

theorem serverLoop_no_exit_frame (evs : List SEvent) :
    ∀ st, ∀ f ∈ (serverLoop st evs).1, f.1 ≠ 8 := by
  induction evs with
  | nil =>
    intro st f hf
    unfold serverLoop at hf
    split at hf <;> simp at hf
  | cons e rest ih =>
    intro st f hf
    unfold serverLoop at hf
    split at hf
    · simp at hf
    · revert hf
      split
      · rename_i fs hstep
        intro hf
        exact (serverStep_no_exit_frame st e).2 fs hstep f hf
      · rename_i st2 fs hstep
        simp only []
        intro hf
        rw [List.mem_append] at hf
        cases hf with
        | inl hf => exact (serverStep_no_exit_frame st e).1 st2 fs hstep f hf
        | inr hf => exact ih st2 f hf

/-- C8: in any session in which the relay loop ends without a protocol
violation and the child ran to normal completion, the frames on the wire
contain exactly one EXIT_CODE frame, it is the last frame sent, and it carries
the exit status as the 4 little-endian bytes of the signed value. -/
theorem C8_exit_code_last (evs : List SEvent) (finalStatus : Option Int)
    (frames : List Frame) (code : Int)
    (h : serverSession evs finalStatus = (frames, .completed (some code))) :
    frames.filter (fun f => f.1 == 8) = [exitFrame code] ∧
    frames.getLast? = some (exitFrame code) ∧
    (0 ≤ code → (exitFrame code).2 = encodeLE4 code.toNat) := by
  unfold serverSession at h
  split at h
  · exact absurd h (by simp)
  · exact absurd h (by simp)
  · rename_i loopFrames st hloop
    have hno := serverLoop_no_exit_frame evs initialSState
    rw [hloop] at hno
    split at h
    · rename_i code2 hstatus
      cases h
      refine ⟨?_, List.getLast?_concat _, ?_⟩
      · rw [List.filter_append]
        rw [List.filter_eq_nil.mpr (fun f hf => by simp [hno f hf])]
        simp [exitFrame]
      · intro hcode
        obtain ⟨n, rfl⟩ : ∃ n : Nat, code = (n : Int) :=
          ⟨code.toNat, (Int.toNat_of_nonneg hcode).symm⟩
        have e0 : (((n : Int)).emod 256).toNat = n % 256 := by
          show ((n : Int) % 256).toNat = n % 256
          omega
        have e1 : ((((n : Int)).fdiv 256).emod 256).toNat = n / 256 % 256 := by
          rw [Int.fdiv_eq_ediv _ (by omega)]
          show (((n : Int) / 256) % 256).toNat = n / 256 % 256
          omega
        have e2 : ((((n : Int)).fdiv 65536).emod 256).toNat = n / 65536 % 256 := by
          rw [Int.fdiv_eq_ediv _ (by omega)]
          show (((n : Int) / 65536) % 256).toNat = n / 65536 % 256
          omega
        have e3 : ((((n : Int)).fdiv 16777216).emod 256).toNat = n / 16777216 % 256 := by
          rw [Int.fdiv_eq_ediv _ (by omega)]
          show (((n : Int) / 16777216) % 256).toNat = n / 16777216 % 256
          omega
        unfold exitFrame encodeLE4
        simp [e0, e1, e2, e3]
    · exact absurd h (by simp)

/-- Witness for C8: a session where the child exits with status 0 and both
output pipes reach EOF sends the two zero-length output frames followed by the
single EXIT_CODE frame. -/
theorem C8_witness :
    ([((5 : Nat), ([] : Str)), (6, []), (8, [0, 0, 0, 0])].filter (fun f => f.1 == 8) =
      [exitFrame 0]) ∧
    ([((5 : Nat), ([] : Str)), (6, []), (8, [0, 0, 0, 0])].getLast? = some (exitFrame 0)) ∧
    (0 ≤ (0 : Int) → (exitFrame 0).2 = encodeLE4 (0 : Int).toNat) :=
  C8_exit_code_last [.childExit (some 0), .stdoutRead [], .stderrRead []] none
    [(5, []), (6, []), (8, [0, 0, 0, 0])] 0 (by rfl)

/-! ### C10: the buffered frame channel (Process.cxx BufferedSendSocket and
BufferedReceiveSocket, lines 116-238). -/

/-- INITIAL_MTU_SIZE (Process.cxx line 116): the initial capacity of both the
send and the receive buffer. -/
def INITIAL_MTU_SIZE : Nat := 8192

/-- State of a BufferedSendSocket: _data.size(), the buffered bytes
_data[0.._end), and the bytes already written to the socket. -/
structure SendState where
  cap : Nat
  buf : Str
  sent : Str
deriving Repr, DecidableEq

/-- BufferedSendSocket::flush (Process.cxx lines 200-209): if _end is nonzero,
write _data[0.._end) to the socket and reset _end. -/
def sendFlush (s : SendState) : SendState :=
  if s.buf = [] then s else ⟨s.cap, [], s.sent ++ s.buf⟩

/-- BufferedSendSocket::write(type, string, length, flush) (Process.cxx lines
212-234): if 5 + length exceeds the free space _data.size() - _end, flush and
resize the buffer to 5 + length if still too small; append the type byte, the
four little-endian length bytes uint8_t(length), uint8_t(length shifted right
by 8, 16, 24), and the bytes uint8_t(string[i]) for i below length; flush if
requested. -/
def sendWrite (s : SendState) (t : Nat) (str : Str) (len : Nat) (fl : Bool) : SendState :=
  let s1 :=
    if s.cap - s.buf.length < 5 + len then
      let sf := sendFlush s
      if sf.cap < 5 + len then ⟨5 + len, sf.buf, sf.sent⟩ else sf
    else s
  let s2 : SendState := ⟨s1.cap, s1.buf ++ (t % 256) :: encodeLE4 len ++ (List.range len).map (charAt str), s1.sent⟩
  if fl then sendFlush s2 else s2

/-- A freshly constructed BufferedSendSocket (Process.cxx line 196). -/
def initSend : SendState := ⟨INITIAL_MTU_SIZE, [], []⟩

/-- The wire bytes of one frame: the type byte followed by the four
little-endian bytes of the payload length followed by the payload. -/
def writeFrame (t : Nat) (payload : Str) : Str :=
  (t % 256) :: encodeLE4 payload.length ++ payload

/-- The do-while fill loop of BufferedReceiveSocket::read (Process.cxx lines
145-153), after the compaction that moved the window _data[_readOffset.._end)
to the front of the buffer: repeatedly read from the socket at offset _end
(reading at most _data.size() - _end bytes) until at least 5 bytes are
buffered.  The stream is the byte sequence the socket will deliver; sched i + 1
caps how many bytes the socket hands over at the i-th read, so quantifying over
sched covers every segmentation of the stream into reads.  A read that returns
0 bytes means the socket is closed: the method returns false (modelled none). -/
def recvFillGo (sched : Nat → Nat) : Nat → Nat → Str → Str → Option (Str × Str × Nat)
  | 0, _, _, _ => none
  | fuel + 1, i, window, stream =>
    let k := min (min (sched i + 1) (INITIAL_MTU_SIZE - window.length)) stream.length
    if k = 0 then none
    else
      let window2 := window ++ stream.take k
      if window2.length < 5 then recvFillGo sched fuel (i + 1) window2 (stream.drop k)
      else some (window2, stream.drop k, i + 1)

/-- BufferedReceiveSocket::read (Process.cxx lines 135-160): if fewer than 5
bytes are buffered, compact and fill; then take the type from the first
window byte and the value from the next four as a little-endian 32-bit
number, consuming 5 window bytes.  Returns (type, value, window, stream, i). -/
def recvRead (sched : Nat → Nat) (i : Nat) (window stream : Str) :
    Option (Nat × Nat × Str × Str × Nat) :=
  if window.length < 5 then
    match recvFillGo sched (stream.length + 1) i window stream with
    | none => none
    | some (w, s, i2) =>
      some (charAt w 0,
        charAt w 1 + charAt w 2 * 256 + charAt w 3 * 65536 + charAt w 4 * 16777216,
        w.drop 5, s, i2)
  else
    some (charAt window 0,
      charAt window 1 + charAt window 2 * 256 + charAt window 3 * 65536 + charAt window 4 * 16777216,
      window.drop 5, stream, i)

/-- BufferedReceiveSocket::readString (Process.cxx lines 163-186): while the
window holds fewer than the still-missing length - string.length() bytes,
append the whole window to the result and refill the window with one fresh
socket read at offset 0 (up to _data.size() bytes); a 0-byte read there means
the socket closed early, a fatal error (LOG_ERROR throws).  Finally take the
remaining bytes from the window.  Returns (result, window, stream, i). -/
def recvReadStringGo (sched : Nat → Nat) (len : Nat) :
    Nat → Nat → Str → Str → Str → Option (Str × Str × Str × Nat)
  | 0, _, _, _, _ => none
  | fuel + 1, i, acc, window, stream =>
    if window.length < len - acc.length then
      let k := min (min (sched i + 1) INITIAL_MTU_SIZE) stream.length
      if k = 0 then none
      else recvReadStringGo sched len fuel (i + 1) (acc ++ window) (stream.take k) (stream.drop k)
    else
      let r := len - acc.length
      some (acc ++ window.take r, window.drop r, stream, i)

/-- Wrapper providing sufficient fuel for recvReadStringGo (each loop
iteration consumes at least one stream byte). -/
def recvReadString (sched : Nat → Nat) (i : Nat) (window stream : Str) (len : Nat) :
    Option (Str × Str × Str × Nat) :=
  recvReadStringGo sched len (stream.length + 1) i [] window stream

/-- One full frame reception on a fresh BufferedReceiveSocket: read the header
with read, then the payload with readString(value), as the relay loops do.
Returns (type, value, payload). -/
def readFrame (sched : Nat → Nat) (stream : Str) : Option (Nat × Nat × Str) :=
  match recvRead sched 0 [] stream with
  | none => none
  | some (ty, len, window, stream2, i2) =>
    match recvReadString sched i2 window stream2 len with
    | none => none
    | some (res, _, _, _) => some (ty, len, res)

example : readFrame (fun _ => 0) (writeFrame 5 (bytes "hi")) = some (5, 2, bytes "hi") := by rfl

example : readFrame (fun _ => 8191) (writeFrame 4 [0, 255, 7]) = some (4, 3, [0, 255, 7]) := by rfl

example : readFrame (fun _ => 0) [8, 1, 0] = none := by rfl

/-- charAt restricted to a long enough take is charAt of the whole list. -/
theorem charAt_take (l : Str) (n i : Nat) (h : i < n) : charAt (l.take n) i = charAt l i := by
  unfold charAt
  simp [List.getD_eq_getElem?_getD, List.getElem?_take, h]

/-- Reading every byte of a string through operator[] reproduces the string. -/
theorem range_map_charAt (s : Str) : (List.range s.length).map (charAt s) = s := by
  refine List.ext_getElem (by simp) ?e
  intro i h1 h2
  simp only [List.getElem_map, List.getElem_range]
  unfold charAt
  rw [List.getD_eq_getElem s 0 h2]

/-- A single flushed write on a fresh BufferedSendSocket puts exactly the
frame bytes on the wire, whatever the payload size (the buffer is resized
first when 5 + length exceeds its capacity). -/
theorem sendWrite_fresh_sent (t : Nat) (payload : Str) :
    (sendWrite initSend t payload payload.length true).sent = writeFrame t payload := by
  have hm : (List.range payload.length).map (charAt payload) = payload := range_map_charAt payload
  unfold sendWrite initSend sendFlush writeFrame
  simp only [hm, List.length_nil, Nat.sub_zero]
  by_cases hc : INITIAL_MTU_SIZE < 5 + payload.length
  · simp [hc]
  · simp [hc]

/-- One unfolding step of the fill loop. -/
theorem recvFillGo_succ (sched : Nat → Nat) (fuel i : Nat) (window stream : Str) :
    recvFillGo sched (fuel + 1) i window stream =
      (let k := min (min (sched i + 1) (INITIAL_MTU_SIZE - window.length)) stream.length
       if k = 0 then none
       else
         if (window ++ stream.take k).length < 5 then
           recvFillGo sched fuel (i + 1) (window ++ stream.take k) (stream.drop k)
         else some (window ++ stream.take k, stream.drop k, i + 1)) := rfl

/-- The fill loop of read: with fewer than 5 buffered bytes but at least 5
total bytes available it succeeds, the final window extends the initial one by
a stream prefix of some positive length r, at least 5 bytes end up buffered,
and the remaining stream is the matching suffix. -/
theorem recvFillGo_spec (sched : Nat → Nat) :
    ∀ (fuel i : Nat) (window stream : Str),
    window.length < 5 →
    5 ≤ window.length + stream.length →
    stream.length < fuel →
    ∃ r i2, 0 < r ∧ r ≤ stream.length ∧ 5 ≤ window.length + r ∧
      recvFillGo sched fuel i window stream = some (window ++ stream.take r, stream.drop r, i2) := by
  intro fuel
  induction fuel with
  | zero =>
    intro i window stream h1 h2 h3
    exact absurd h3 (by omega)
  | succ fuel ih =>
    intro i window stream h1 h2 h3
    have hs : 0 < stream.length := by omega
    have hstep := recvFillGo_succ sched fuel i window stream
    simp only [] at hstep
    obtain ⟨k, hkk⟩ : ∃ k, min (min (sched i + 1) (INITIAL_MTU_SIZE - window.length)) stream.length = k :=
      ⟨_, rfl⟩
    rw [hkk] at hstep
    have hM : INITIAL_MTU_SIZE = 8192 := rfl
    have hk : 0 < k := by
      rw [← hkk, hM]
      omega
    have hkle : k ≤ stream.length := by
      rw [← hkk]
      exact Nat.min_le_right _ _
    have htl : (stream.take k).length = k := by
      rw [List.length_take]
      omega
    have hdl : (stream.drop k).length = stream.length - k := List.length_drop _ _
    have hlen2 : (window ++ stream.take k).length = window.length + k := by
      rw [List.length_append, htl]
    rw [if_neg (by omega : ¬ k = 0)] at hstep
    by_cases hw : (window ++ stream.take k).length < 5
    · rw [if_pos hw] at hstep
      obtain ⟨r2, i2, hr0, hrle, hr5, heq⟩ := ih (i + 1) (window ++ stream.take k) (stream.drop k)
        (by omega) (by omega) (by omega)
      refine ⟨k + r2, i2, by omega, by omega, by omega, ?_⟩
      rw [hstep, heq, List.append_assoc, ← List.take_add, List.drop_drop]
    · rw [if_neg hw] at hstep
      exact ⟨k, i + 1, by omega, hkle, by omega, hstep⟩

/-- One unfolding step of the readString loop. -/
theorem recvReadStringGo_succ (sched : Nat → Nat) (len fuel i : Nat) (acc window stream : Str) :
    recvReadStringGo sched len (fuel + 1) i acc window stream =
      (if window.length < len - acc.length then
         let k := min (min (sched i + 1) INITIAL_MTU_SIZE) stream.length
         if k = 0 then none
         else recvReadStringGo sched len fuel (i + 1) (acc ++ window) (stream.take k) (stream.drop k)
       else some (acc ++ window.take (len - acc.length), window.drop (len - acc.length), stream, i)) := rfl

/-- The readString loop: as long as the requested length does not exceed the
bytes already collected plus the buffered window plus the remaining stream, it
returns exactly the first len bytes of collected ++ window ++ stream. -/
theorem recvReadStringGo_spec (sched : Nat → Nat) (len : Nat) :
    ∀ (fuel i : Nat) (acc window stream : Str),
    acc.length ≤ len →
    len ≤ acc.length + window.length + stream.length →
    stream.length < fuel →
    ∃ w2 s2 i2,
      recvReadStringGo sched len fuel i acc window stream =
        some ((acc ++ window ++ stream).take len, w2, s2, i2) := by
  intro fuel
  induction fuel with
  | zero =>
    intro i acc window stream h1 h2 h3
    exact absurd h3 (by omega)
  | succ fuel ih =>
    intro i acc window stream hacc htot h3
    have hstep := recvReadStringGo_succ sched len fuel i acc window stream
    by_cases hw : window.length < len - acc.length
    · rw [if_pos hw] at hstep
      simp only [] at hstep
      have hs : 0 < stream.length := by omega
      obtain ⟨k, hkk⟩ : ∃ k, min (min (sched i + 1) INITIAL_MTU_SIZE) stream.length = k := ⟨_, rfl⟩
      rw [hkk] at hstep
      have hM : INITIAL_MTU_SIZE = 8192 := rfl
      have hk : 0 < k := by
        rw [← hkk]
        exact lt_min (lt_min (Nat.succ_pos _) (by rw [hM]; omega)) hs
      have hkle : k ≤ stream.length := by
        rw [← hkk]
        exact Nat.min_le_right _ _
      rw [if_neg (by omega : ¬ k = 0)] at hstep
      have htl : (stream.take k).length = k := by
        rw [List.length_take]
        omega
      have hdl : (stream.drop k).length = stream.length - k := List.length_drop _ _
      have hal : (acc ++ window).length = acc.length + window.length := List.length_append _ _
      obtain ⟨w2, s2, i2, heq⟩ := ih (i + 1) (acc ++ window) (stream.take k) (stream.drop k)
        (by omega) (by omega) (by omega)
      refine ⟨w2, s2, i2, ?_⟩
      rw [hstep, heq]
      have hrw : (acc ++ window) ++ stream.take k ++ stream.drop k = acc ++ window ++ stream := by
        rw [List.append_assoc (acc ++ window), List.take_append_drop]
      rw [hrw]
    · rw [if_neg hw] at hstep
      refine ⟨window.drop (len - acc.length), stream, i, ?_⟩
      rw [hstep]
      have h1 : ((acc ++ window) ++ stream).take len
          = (acc ++ window).take len ++ stream.take (len - (acc ++ window).length) :=
        List.take_append_eq_append_take
      have h2 : (acc ++ window).take len = acc.take len ++ window.take (len - acc.length) :=
        List.take_append_eq_append_take
      have h3 : acc.take len = acc := List.take_of_length_le hacc
      have h4 : len - (acc ++ window).length = 0 := by
        rw [List.length_append]
        omega
      have h5 : (acc ++ window ++ stream).take len = acc ++ window.take (len - acc.length) := by
        rw [h1, h2, h3, h4, List.take_zero, List.append_nil]
      rw [h5]

/-- C10: frame round-trip over the buffered channel.  For every payload type
byte t and every payload shorter than 2 to the 32 written with
BufferedSendSocket::write on a fresh socket, the wire carries exactly the
5-byte header (type byte, then the payload length as four little-endian
bytes) followed by the payload; and a fresh BufferedReceiveSocket consuming
that stream (followed by any further bytes), under any segmentation of the
stream into successive socket reads, returns from read the same type and the
payload length decoded little-endian, and from readString the identical
payload bytes. -/
theorem C10_frame_roundtrip (sched : Nat → Nat) (t : Nat) (payload extra : Str)
    (ht : t < 256) (hlen : payload.length < 4294967296) :
    (sendWrite initSend t payload payload.length true).sent = writeFrame t payload ∧
    readFrame sched (writeFrame t payload ++ extra) = some (t, payload.length, payload) := by
  refine ⟨sendWrite_fresh_sent t payload, ?_⟩
  have hWlen : (writeFrame t payload ++ extra).length = 5 + (payload.length + extra.length) := by
    unfold writeFrame encodeLE4
    simp only [List.length_append, List.length_cons, List.length_nil]
    omega
  obtain ⟨r, i2, hr0, hrle, hr5, hfeq⟩ :=
    recvFillGo_spec sched ((writeFrame t payload ++ extra).length + 1) 0 []
      (writeFrame t payload ++ extra) (by simp)
      (by simp only [List.length_nil, Nat.zero_add, hWlen]; omega) (by omega)
  simp only [List.nil_append, List.length_nil, Nat.zero_add] at hfeq hr5
  have hread0 : recvRead sched 0 [] (writeFrame t payload ++ extra) =
      some (charAt ((writeFrame t payload ++ extra).take r) 0,
        charAt ((writeFrame t payload ++ extra).take r) 1 +
          charAt ((writeFrame t payload ++ extra).take r) 2 * 256 +
          charAt ((writeFrame t payload ++ extra).take r) 3 * 65536 +
          charAt ((writeFrame t payload ++ extra).take r) 4 * 16777216,
        ((writeFrame t payload ++ extra).take r).drop 5,
        (writeFrame t payload ++ extra).drop r, i2) := by
    unfold recvRead
    rw [if_pos (by simp : ([] : Str).length < 5), hfeq]
  have hc0 : charAt ((writeFrame t payload ++ extra).take r) 0 = t := by
    rw [charAt_take _ _ _ (by omega)]
    show t % 256 = t
    exact Nat.mod_eq_of_lt ht
  have hc1 : charAt ((writeFrame t payload ++ extra).take r) 1 = payload.length % 256 := by
    rw [charAt_take _ _ _ (by omega)]
    rfl
  have hc2 : charAt ((writeFrame t payload ++ extra).take r) 2 = payload.length / 256 % 256 := by
    rw [charAt_take _ _ _ (by omega)]
    rfl
  have hc3 : charAt ((writeFrame t payload ++ extra).take r) 3 = payload.length / 65536 % 256 := by
    rw [charAt_take _ _ _ (by omega)]
    rfl
  have hc4 : charAt ((writeFrame t payload ++ extra).take r) 4
      = payload.length / 16777216 % 256 := by
    rw [charAt_take _ _ _ (by omega)]
    rfl
  have hval : charAt ((writeFrame t payload ++ extra).take r) 1 +
      charAt ((writeFrame t payload ++ extra).take r) 2 * 256 +
      charAt ((writeFrame t payload ++ extra).take r) 3 * 65536 +
      charAt ((writeFrame t payload ++ extra).take r) 4 * 16777216 = payload.length := by
    rw [hc1, hc2, hc3, hc4]
    omega
  rw [hc0, hval] at hread0
  have hjoin : ((writeFrame t payload ++ extra).take r).drop 5 ++
      (writeFrame t payload ++ extra).drop r = payload ++ extra := by
    rw [List.drop_take r 5 (writeFrame t payload ++ extra)]
    have h2 : (writeFrame t payload ++ extra).drop r
        = ((writeFrame t payload ++ extra).drop 5).drop (r - 5) := by
      rw [List.drop_drop]
      congr 1
      omega
    rw [h2, List.take_append_drop]
    rfl
  have hlens : (((writeFrame t payload ++ extra).take r).drop 5).length +
      ((writeFrame t payload ++ extra).drop r).length = payload.length + extra.length := by
    rw [← List.length_append, hjoin, List.length_append]
  obtain ⟨w2, s2, i3, hstr⟩ :=
    recvReadStringGo_spec sched payload.length
      (((writeFrame t payload ++ extra).drop r).length + 1) i2 []
      (((writeFrame t payload ++ extra).take r).drop 5) ((writeFrame t payload ++ extra).drop r)
      (by simp) (by simp only [List.length_nil, Nat.zero_add]; omega) (by omega)
  simp only [List.nil_append] at hstr
  rw [hjoin, List.take_left] at hstr
  have hstr2 : recvReadString sched i2 (((writeFrame t payload ++ extra).take r).drop 5)
      ((writeFrame t payload ++ extra).drop r) payload.length = some (payload, w2, s2, i3) := by
    unfold recvReadString
    exact hstr
  unfold readFrame
  rw [hread0]
  simp only [hstr2]

/-- Witness for C10 at type 5 (STDOUT_DATA), payload "hi", trailing bytes
[9, 9] and a segmentation that delivers j % 3 + 1 bytes at the j-th read. -/
theorem C10_witness :
    (sendWrite initSend 5 (bytes "hi") (bytes "hi").length true).sent = writeFrame 5 (bytes "hi") ∧
    readFrame (fun j => j % 3) (writeFrame 5 (bytes "hi") ++ [9, 9])
      = some (5, (bytes "hi").length, bytes "hi") :=
  C10_frame_roundtrip (fun j => j % 3) 5 (bytes "hi") [9, 9] (by decide) (by decide)

end K8psh
